import Mathlib

set_option linter.unreachableTactic false
set_option linter.unusedVariables false

/-!
# Verification of the beautifulmail TUI state machine

A shallow embedding of the interactive core of the `beautifulmail`
repository: the data model and key router of `src/app.rs`, the entry
loader of `src/email.rs`, and the watcher protocol of `src/main.rs`.
File-system reads are modelled by passing a mailbox directory as the
list of parse outcomes of its `.md` files; all other code is translated
function-by-function from the Rust source.
-/

namespace BMail

/-- Key codes, mirroring the crossterm `KeyCode` variants the source
matches on; `Other` stands for every remaining variant, which all the
source's `match` arms treat uniformly through their catch-all arm. -/
inductive KeyCode where
  | Char : Char → KeyCode
  | Enter : KeyCode
  | Esc : KeyCode
  | Tab : KeyCode
  | BackTab : KeyCode
  | Down : KeyCode
  | Up : KeyCode
  | Backspace : KeyCode
  | Other : KeyCode
  deriving DecidableEq, Repr

/-- Messages that drive state transitions (`Message` in app.rs).
`MailboxChanged` is referenced from main.rs; see
`App.handle_mailbox_changed` for its (spec-modelled) update arm. -/
inductive Message where
  | Key : KeyCode → Message
  | Resize : Nat → Nat → Message
  | Quit : Message
  | MailboxChanged : Message
  deriving DecidableEq, Repr

/-- Which pane currently has focus (`Focus` in app.rs). -/
inductive Focus where
  | Sidebar : Focus
  | List : Focus
  | Preview : Focus
  | Search : Focus
  deriving DecidableEq, Repr

/-- A mailbox the user can navigate to (`Mailbox` in app.rs). -/
inductive Mailbox where
  | Inbox : Mailbox
  | Drafts : Mailbox
  | Sent : Mailbox
  | Archive : Mailbox
  deriving DecidableEq, Repr

/-- `Mailbox::ALL`. -/
def Mailbox.ALL : List Mailbox := [.Inbox, .Drafts, .Sent, .Archive]

/-- `Mailbox::label`. -/
def Mailbox.label : Mailbox → String
  | .Inbox => "Inbox"
  | .Drafts => "Drafts"
  | .Sent => "Sent"
  | .Archive => "Archive"

/-- `Mailbox::index`: index into `Mailbox::ALL`. -/
def Mailbox.index : Mailbox → Fin 4
  | .Inbox => 0
  | .Drafts => 1
  | .Sent => 2
  | .Archive => 3

/-- Side-effects that the main loop must execute (`Action` in app.rs). -/
inductive Action where
  | EditCurrent : Action
  | Reply : Bool → Action
  | Send : Action
  | SendApproved : Action
  | NewDraft : Action
  | Approve : Action
  | Archive : Action
  | Delete : Action
  | CopyPath : Action
  | Fetch : Action
  | Sync : Action
  deriving DecidableEq, Repr

/-- Which destructive action a confirmation dialog is guarding
(`ConfirmAction` in app.rs). -/
inductive ConfirmAction where
  | Archive : ConfirmAction
  | Delete : ConfirmAction
  | Send : ConfirmAction
  | SendApproved : ConfirmAction
  deriving DecidableEq, Repr

/-- The `Action` that confirming a dialog with the given tag queues
(the match inside `App::handle_confirm_key`). -/
def ConfirmAction.toAction : ConfirmAction → Action
  | .Archive => .Archive
  | .Delete => .Delete
  | .Send => .Send
  | .SendApproved => .SendApproved

/-- Data for rendering the confirmation dialog overlay
(`ConfirmDialog` in app.rs). -/
structure ConfirmDialog where
  title : String
  detail : String
  action : ConfirmAction
  deriving DecidableEq, Repr

/-- Parsed email entry for display (`EmailEntry` in email.rs).
The file path is kept as a string; `from` is a Lean keyword, so the
sender field is `from_`. -/
structure EmailEntry where
  path : String
  from_ : String
  to_ : String
  cc : Option String
  subject : String
  status : String
  date_display : String
  date_sort : String
  body : String
  has_attachments : Bool
  deriving DecidableEq, Repr

/-- `EmailEntry::display_contact`: Inbox/Archive show `from`,
Drafts/Sent show `to`. -/
def EmailEntry.display_contact (e : EmailEntry) : Mailbox → String
  | .Inbox | .Archive => e.from_
  | .Drafts | .Sent => e.to_

/-- The outcome of `parse_email` on one `.md` file of a mailbox
directory: `Except.ok` for a well-formed file, `Except.error` for a
file whose parse fails. -/
abbrev ParsedFile : Type := Except Unit EmailEntry

instance : DecidableEq (Except Unit EmailEntry) := fun a b =>
  match a, b with
  | .ok x, .ok y =>
    if h : x = y then isTrue (congrArg Except.ok h)
    else isFalse (fun he => h (Except.ok.inj he))
  | .error x, .error y => isTrue (by cases x; cases y; rfl)
  | .ok _, .error _ => isFalse (fun he => Except.noConfusion he)
  | .error _, .ok _ => isFalse (fun he => Except.noConfusion he)

/-- The descending-date comparator of `load_emails`:
`entries.sort_by(|a, b| b.date_sort.cmp(&a.date_sort))` places `a`
before `b` exactly when `b.date_sort <= a.date_sort`. -/
def dateDesc (a b : EmailEntry) : Prop := b.date_sort ≤ a.date_sort

instance : DecidableRel dateDesc := fun a b =>
  inferInstanceAs (Decidable (b.date_sort ≤ a.date_sort))

instance : IsTotal EmailEntry dateDesc :=
  ⟨fun a b => (le_total b.date_sort a.date_sort).imp id id⟩

instance : IsTrans EmailEntry dateDesc :=
  ⟨fun _ _ _ h1 h2 => le_trans h2 h1⟩

/-- `load_emails` (email.rs lines 52-74), with the directory scan
abstracted to the list of per-file parse outcomes: files whose parse
fails are skipped, the survivors are sorted by `date_sort`
descending with a stable sort. -/
def load_emails (files : List ParsedFile) : List EmailEntry :=
  List.insertionSort dateDesc
    (files.filterMap fun f => (f : Except Unit EmailEntry).toOption)

/-- The fields of a chrono date-time value that `resolve_date` formats
with `%Y-%m-%d` and `%Y-%m-%dT%H:%M:%S`. -/
structure ChronoDT where
  year : Nat
  month : Nat
  day : Nat
  hour : Nat
  minute : Nat
  second : Nat
  deriving DecidableEq, Repr

/-- Zero-padding to two digits, as chrono's `%m`/`%d`/`%H`/`%M`/`%S`. -/
def pad2 (n : Nat) : String :=
  if n < 10 then "0" ++ toString n else toString n

/-- Zero-padding to four digits, as chrono's `%Y` for years in
0..9999. -/
def pad4 (n : Nat) : String :=
  if n < 10 then "000" ++ toString n
  else if n < 100 then "00" ++ toString n
  else if n < 1000 then "0" ++ toString n
  else toString n

/-- `dt.format("%Y-%m-%d")`. -/
def ChronoDT.fmtDate (dt : ChronoDT) : String :=
  pad4 dt.year ++ "-" ++ pad2 dt.month ++ "-" ++ pad2 dt.day

/-- `dt.format("%Y-%m-%dT%H:%M:%S")`. -/
def ChronoDT.fmtDateTime (dt : ChronoDT) : String :=
  dt.fmtDate ++ "T" ++ pad2 dt.hour ++ ":" ++ pad2 dt.minute ++ ":" ++
    pad2 dt.second

/-- Whether a year is a leap year (Gregorian). -/
def isLeap (y : Nat) : Bool :=
  (y % 4 == 0 && y % 100 != 0) || y % 400 == 0

/-- Days in a month, for validating a calendar date. -/
def daysInMonth (y m : Nat) : Nat :=
  if m = 2 then (if isLeap y then 29 else 28)
  else if m = 4 ∨ m = 6 ∨ m = 9 ∨ m = 11 then 30
  else 31

/-- The numeric value of a decimal digit character. -/
def digitVal (c : Char) : Nat := c.toNat - '0'.toNat

/-- Whether `NaiveDate::parse_from_str(s, "%Y-%m-%d")` succeeds: ten
characters `DDDD-DD-DD` forming a valid calendar date. -/
def parseYmdOk (s : String) : Bool :=
  match s.toList with
  | [y1, y2, y3, y4, s1, m1, m2, s2, d1, d2] =>
    (y1.isDigit && y2.isDigit && y3.isDigit && y4.isDigit &&
     (s1 == '-') && m1.isDigit && m2.isDigit && (s2 == '-') &&
     d1.isDigit && d2.isDigit) &&
    (let y := ((digitVal y1 * 10 + digitVal y2) * 10 + digitVal y3) * 10 +
        digitVal y4
     let m := digitVal m1 * 10 + digitVal m2
     let d := digitVal d1 * 10 + digitVal d2
     1 ≤ m && m ≤ 12 && 1 ≤ d && d ≤ daysInMonth y m)
  | _ => false

/-- `resolve_date` (email.rs lines 131-189). The three chrono parsers
(`DateTime::parse_from_rfc2822`, `DateTime::parse_from_rfc3339`, and
`NaiveDateTime::parse_from_str` with the bare-`Z` ISO format) are
external library functions and are taken as parameters; `file_stem`
is `path.file_stem()`, the filename without its extension. Returns
`(date_display, date_sort)`. -/
def resolve_date (rfc2822 rfc3339 naiveZ : String → Option ChronoDT)
    (date_field sent_at_field : Option String) (file_stem : String) :
    String × String :=
  match date_field.bind rfc2822 with
  | some dt => (dt.fmtDate, dt.fmtDateTime)
  | none =>
    match sent_at_field.bind
        (fun s => (rfc3339 s).orElse fun _ => naiveZ s) with
    | some dt => (dt.fmtDate, dt.fmtDateTime)
    | none =>
      let cs := file_stem.toList
      if cs.length ≥ 10 then
        let date_part := (cs.take 10).asString
        if parseYmdOk date_part then
          if cs.length ≥ 15 && (cs.get? 10 == some '-') then
            let time_part := ((cs.drop 11).take 4).asString
            if time_part.toList.all Char.isDigit &&
                time_part.length == 4 then
              (date_part,
                date_part ++ "T" ++ (time_part.toList.take 2).asString ++
                  ":" ++ (time_part.toList.drop 2).asString ++ ":00")
            else (date_part, date_part ++ "T00:00:00")
          else (date_part, date_part ++ "T00:00:00")
        else ("", "")
      else ("", "")

/-- A mailbox directory, modelled by the parse outcomes of its
first-level `.md` files; `none` when the directory is unconfigured or
not on disk. -/
abbrev Dir : Type := Option (List ParsedFile)

/-- Pointwise update of a 4-slot array. -/
def upd4 {α : Type} (f : Fin 4 → α) (i : Fin 4) (v : α) : Fin 4 → α :=
  fun j => if j = i then v else f j

/-- `count_emails` (app.rs lines 697-715): the number of first-level
`.md` files per directory; a missing directory yields 0. -/
def count_emails (dirs : Fin 4 → Dir) : Fin 4 → Nat := fun i =>
  match (dirs i : Option (List ParsedFile)) with
  | some files => files.length
  | none => 0

/-- `u16::saturating_add`. -/
def satAdd16 (a b : Nat) : Nat := min (a + b) 65535

/-- Top-level application state (`App` in app.rs), with the
`watcher_active` flag referenced from main.rs. -/
structure App where
  focus : Focus
  running : Bool
  terminal_width : Nat
  terminal_height : Nat
  sidebar_index : Nat
  active_mailbox : Mailbox
  mailbox_counts : Fin 4 → Nat
  mailbox_dirs : Fin 4 → Dir
  emails : List EmailEntry
  list_index : Nat
  g_pending : Bool
  preview_scroll : Nat
  email_cache : Fin 4 → Option (List EmailEntry)
  pending_action : Option Action
  confirm_dialog : Option ConfirmDialog
  status_message : Option String
  status_ticks : Nat
  search_query : String
  search_includes_body : Bool
  show_help : Bool
  watcher_active : Bool

/-- `App::new` (app.rs lines 158-193), given the resolved directories. -/
def App.new (dirs : Fin 4 → Dir) : App :=
  let counts := count_emails dirs
  let emails :=
    match (dirs 0 : Option (List ParsedFile)) with
    | some d => load_emails d
    | none => []
  { focus := .List
    running := true
    terminal_width := 0
    terminal_height := 0
    sidebar_index := 0
    active_mailbox := .Inbox
    mailbox_counts := counts
    mailbox_dirs := dirs
    emails := emails
    list_index := 0
    g_pending := false
    preview_scroll := 0
    email_cache := upd4 (fun _ => none) 0 (some emails)
    pending_action := none
    confirm_dialog := none
    status_message := none
    status_ticks := 0
    search_query := ""
    search_includes_body := false
    show_help := false
    watcher_active := false }

/-- `App::set_status`. -/
def App.set_status (a : App) (msg : String) : App :=
  { a with status_message := some msg, status_ticks := 12 }

/-- `App::tick_status`. -/
def App.tick_status (a : App) : App :=
  if a.status_ticks > 0 then
    let t := a.status_ticks - 1
    { a with status_ticks := t,
             status_message := if t = 0 then none else a.status_message }
  else a

/-- `App::selected_email`. -/
def App.selected_email (a : App) : Option EmailEntry :=
  a.emails.get? a.list_index

/-- `App::invalidate_cache`. -/
def App.invalidate_cache (a : App) (mb : Mailbox) : App :=
  { a with email_cache := upd4 a.email_cache mb.index none }

/-- `App::invalidate_all_caches`. -/
def App.invalidate_all_caches (a : App) : App :=
  { a with email_cache := fun _ => none }

/-- `App::switch_mailbox` (app.rs lines 262-282): set the mailbox as
active, clear the search state, load from cache or disk, update the
count slot and reset the selection. -/
def App.switch_mailbox (a : App) (mb : Mailbox) : App :=
  let a1 := { a with active_mailbox := mb, search_query := "",
                     search_includes_body := false }
  let idx := mb.index
  let a2 :=
    match a1.email_cache idx with
    | some cached => { a1 with emails := cached }
    | none =>
      let loaded :=
        match (a1.mailbox_dirs idx : Option (List ParsedFile)) with
        | some d => load_emails d
        | none => []
      { a1 with email_cache := upd4 a1.email_cache idx (some loaded),
                emails := loaded }
  { a2 with mailbox_counts := upd4 a2.mailbox_counts idx a2.emails.length,
            list_index := 0 }

/-- `App::reload_current_mailbox` (app.rs lines 248-259). -/
def App.reload_current_mailbox (a : App) : App :=
  let a1 := a.invalidate_cache a.active_mailbox
  let a2 := a1.switch_mailbox a1.active_mailbox
  let a3 :=
    if a2.emails.isEmpty then { a2 with list_index := 0 }
    else { a2 with list_index := min a2.list_index (a2.emails.length - 1) }
  { a3 with mailbox_counts := count_emails a3.mailbox_dirs }

/-- Substring test on character lists (Rust `str::contains`). -/
def containsSub (l q : List Char) : Bool :=
  match l with
  | [] => q.isEmpty
  | _ :: t => q.isPrefixOf l || containsSub t q

/-- Rust `str::contains` on strings. -/
def strContains (s q : String) : Bool := containsSub s.toList q.toList

/-- The per-entry predicate of `App::apply_search_filter` (app.rs
lines 644-653), with `query` already lower-cased. -/
def emailMatches (mb : Mailbox) (includes_body : Bool) (query : String)
    (e : EmailEntry) : Bool :=
  strContains e.subject.toLower query ||
  strContains (e.display_contact mb).toLower query ||
  strContains e.date_display.toLower query ||
  strContains e.from_.toLower query ||
  strContains e.to_.toLower query ||
  (includes_body && strContains e.body.toLower query)

/-- The filtering core of `App::apply_search_filter` (app.rs lines
638-655): an empty query keeps the whole cached list, otherwise the
entries matching the lower-cased query are kept. -/
def filterEmails (entries : List EmailEntry) (q : String)
    (includes_body : Bool) (mb : Mailbox) : List EmailEntry :=
  if q.isEmpty then entries
  else entries.filter (emailMatches mb includes_body q.toLower)

/-- `App::apply_search_filter` (app.rs lines 634-659). -/
def App.apply_search_filter (a : App) : App :=
  let idx := a.active_mailbox.index
  let all_emails := (a.email_cache idx).getD []
  { a with emails := filterEmails all_emails a.search_query
             a.search_includes_body a.active_mailbox,
           list_index := 0, preview_scroll := 0 }

/-- `App::reload_from_cache` (app.rs lines 662-669). -/
def App.reload_from_cache (a : App) : App :=
  let idx := a.active_mailbox.index
  let a1 :=
    match a.email_cache idx with
    | some cached => { a with emails := cached }
    | none => a
  { a1 with list_index := 0, preview_scroll := 0 }

/-- `App::handle_confirm_key` (app.rs lines 389-407): `y`/Enter
converts the dialog's tag into the queued Action and clears the
dialog, `n`/Esc clears the dialog, everything else is ignored. -/
def App.handle_confirm_key (a : App) (k : KeyCode) : App :=
  if k = .Char 'y' ∨ k = .Enter then
    match a.confirm_dialog with
    | some dialog =>
      { a with confirm_dialog := none,
               pending_action := some dialog.action.toAction }
    | none => a
  else if k = .Char 'n' ∨ k = .Esc then { a with confirm_dialog := none }
  else a

/-- `App::handle_help_key` (app.rs lines 599-607). -/
def App.handle_help_key (a : App) (k : KeyCode) : App :=
  if k = .Char '?' ∨ k = .Esc then { a with show_help := false } else a

/-- `App::handle_sidebar_key` (app.rs lines 409-434). `none` models
the panic of `Mailbox::ALL[self.sidebar_index]` when the highlight
index is out of range. -/
def App.handle_sidebar_key (a : App) (k : KeyCode) : Option App :=
  let a := { a with g_pending := false }
  if k = .Char 'j' ∨ k = .Down then
    some (if a.sidebar_index < Mailbox.ALL.length - 1 then
            { a with sidebar_index := a.sidebar_index + 1 }
          else a)
  else if k = .Char 'k' ∨ k = .Up then
    some { a with sidebar_index := a.sidebar_index - 1 }
  else if k = .Enter ∨ k = .Char 'l' then
    match Mailbox.ALL.get? a.sidebar_index with
    | some mailbox =>
      let a1 := a.switch_mailbox mailbox
      some { a1 with focus := .List }
    | none => none
  else if k = .Esc ∨ k = .Char 'h' then some { a with focus := .List }
  else some a

/-- `App::handle_list_key` (app.rs lines 436-568). -/
def App.handle_list_key (a : App) (k : KeyCode) : App :=
  if a.emails.isEmpty then
    let a := { a with g_pending := false }
    if k = .Char 'f' then { a with pending_action := some .Fetch }
    else if k = .Char 'F' then { a with pending_action := some .Sync }
    else if k = .Char 'n' then { a with pending_action := some .NewDraft }
    else a
  else
    let old_index := a.list_index
    let a1 :=
      if k = .Char 'g' then
        if a.g_pending then { a with list_index := 0, g_pending := false }
        else { a with g_pending := true }
      else if k = .Char 'G' then
        { a with g_pending := false, list_index := a.emails.length - 1 }
      else if k = .Char 'j' ∨ k = .Down then
        let a := { a with g_pending := false }
        if a.list_index < a.emails.length - 1 then
          { a with list_index := a.list_index + 1 }
        else a
      else if k = .Char 'k' ∨ k = .Up then
        { a with g_pending := false, list_index := a.list_index - 1 }
      else if k = .Char 'h' then { a with g_pending := false, focus := .Sidebar }
      else if k = .Char 'l' then { a with g_pending := false, focus := .Preview }
      else if k = .Enter ∨ k = .Char 'e' then
        { a with g_pending := false, pending_action := some .EditCurrent }
      else if k = .Char 'r' then
        { a with g_pending := false, pending_action := some (.Reply false) }
      else if k = .Char 'R' then
        { a with g_pending := false, pending_action := some (.Reply true) }
      else if k = .Char 'a' then
        let a := { a with g_pending := false }
        match a.selected_email with
        | some email =>
          { a with confirm_dialog := some ⟨"Archive this email?",
                email.from_ ++ " - " ++ email.subject, .Archive⟩ }
        | none => a
      else if k = .Char 'd' then
        let a := { a with g_pending := false }
        match a.selected_email with
        | some email =>
          { a with confirm_dialog := some ⟨"Delete this email?",
                email.from_ ++ " - " ++ email.subject, .Delete⟩ }
        | none => a
      else if k = .Char 'A' then
        { a with g_pending := false, pending_action := some .Approve }
      else if k = .Char 'x' then
        let a := { a with g_pending := false }
        match a.selected_email with
        | some email =>
          { a with confirm_dialog := some ⟨"Send this email?",
                "To: " ++ email.to_ ++ " - " ++ email.subject, .Send⟩ }
        | none => a
      else if k = .Char 'X' then
        { a with g_pending := false,
                 confirm_dialog := some ⟨"Send all approved emails?",
                   "In " ++ a.active_mailbox.label, .SendApproved⟩ }
      else if k = .Char 'y' then
        { a with g_pending := false, pending_action := some .CopyPath }
      else if k = .Char 'n' then
        { a with g_pending := false, pending_action := some .NewDraft }
      else if k = .Char 'f' then
        { a with g_pending := false, pending_action := some .Fetch }
      else if k = .Char 'F' then
        { a with g_pending := false, pending_action := some .Sync }
      else { a with g_pending := false }
    if a1.list_index ≠ old_index then { a1 with preview_scroll := 0 } else a1

/-- `App::handle_preview_key` (app.rs lines 570-597). -/
def App.handle_preview_key (a : App) (k : KeyCode) : App :=
  let a := { a with g_pending := false }
  if k = .Char 'j' ∨ k = .Down then
    { a with preview_scroll := satAdd16 a.preview_scroll 1 }
  else if k = .Char 'k' ∨ k = .Up then
    { a with preview_scroll := a.preview_scroll - 1 }
  else if k = .Char 'd' then
    { a with preview_scroll := satAdd16 a.preview_scroll 10 }
  else if k = .Char 'u' then
    { a with preview_scroll := a.preview_scroll - 10 }
  else if k = .Esc ∨ k = .Char 'h' then { a with focus := .List }
  else a

/-- `App::handle_search_key` (app.rs lines 609-631). -/
def App.handle_search_key (a : App) (k : KeyCode) : App :=
  match k with
  | .Enter => { a with focus := .List }
  | .Esc =>
    let a1 := { a with search_query := "", search_includes_body := false }
    let a2 := a1.reload_from_cache
    { a2 with focus := .List }
  | .Char c =>
    ({ a with search_query := a.search_query.push c }).apply_search_filter
  | .Backspace =>
    ({ a with search_query := a.search_query.dropRight 1
     }).apply_search_filter
  | _ => a

/-- `App::handle_key` (app.rs lines 284-387): overlay precedence, then
search-mode input, then global keys, then pane-specific dispatch. The
result is `none` exactly when the source would panic (the
`Focus::Search` arm of the pane dispatch, and indexing
`Mailbox::ALL` out of range); the second component is the follow-up
`Message`. -/
def App.handle_key (a : App) (k : KeyCode) : Option (App × Option Message) :=
  if a.confirm_dialog.isSome then some (a.handle_confirm_key k, none)
  else if a.show_help then some (a.handle_help_key k, none)
  else if a.focus = .Search then some (a.handle_search_key k, none)
  else if k = .Char 'q' then some (a, some .Quit)
  else if k = .Char '?' then
    some ({ a with g_pending := false, show_help := true }, none)
  else if k = .Char '/' then
    let a1 := { a with g_pending := false, focus := .Search,
                       search_query := "", search_includes_body := false }
    some (a1.reload_from_cache, none)
  else if k = .Char '\\' then
    let a1 := { a with g_pending := false, focus := .Search,
                       search_query := "", search_includes_body := true }
    some (a1.reload_from_cache, none)
  else if k = .Char '1' then
    let a1 := { a with g_pending := false, sidebar_index := 0 }
    some ({ a1.switch_mailbox .Inbox with focus := .List }, none)
  else if k = .Char '2' then
    let a1 := { a with g_pending := false, sidebar_index := 1 }
    some ({ a1.switch_mailbox .Drafts with focus := .List }, none)
  else if k = .Char '3' then
    let a1 := { a with g_pending := false, sidebar_index := 2 }
    some ({ a1.switch_mailbox .Sent with focus := .List }, none)
  else if k = .Char '4' then
    let a1 := { a with g_pending := false, sidebar_index := 3 }
    some ({ a1.switch_mailbox .Archive with focus := .List }, none)
  else if k = .Char 's' then
    some ({ a with g_pending := false, focus := .Sidebar }, none)
  else if k = .Tab then
    let f : Focus :=
      match a.focus with
      | .Sidebar => .List
      | .List => .Preview
      | .Preview => .Sidebar
      | .Search => .List
    some ({ a with g_pending := false, focus := f }, none)
  else if k = .BackTab then
    let f : Focus :=
      match a.focus with
      | .Sidebar => .Preview
      | .List => .Sidebar
      | .Preview => .List
      | .Search => .List
    some ({ a with g_pending := false, focus := f }, none)
  else
    match a.focus with
    | .Sidebar => (a.handle_sidebar_key k).map fun a1 => (a1, none)
    | .List => some (a.handle_list_key k, none)
    | .Preview => some (a.handle_preview_key k, none)
    | .Search => none

/-- Modelled from the spec: the `Message::MailboxChanged` update arm.
`main.rs` routes the watcher's change notification as an
`app.update(Message::MailboxChanged)` call, but the `app.rs` in the
snapshot predates that variant; per the spec it flows "through the
same router as a key event would (causing a reload and count
refresh)". -/
def App.handle_mailbox_changed (a : App) : App :=
  a.reload_current_mailbox

/-- `App::update` (app.rs lines 196-209): process a message, with the
optional follow-up message in the second component; `none` models a
panic inside the key router. -/
def App.update (a : App) (m : Message) : Option (App × Option Message) :=
  match m with
  | .Key k => a.handle_key k
  | .Resize w h =>
    some ({ a with terminal_width := w, terminal_height := h }, none)
  | .Quit => some ({ a with running := false }, none)
  | .MailboxChanged => some (a.handle_mailbox_changed, none)

/-- `WatchEvent` (main.rs lines 21-24). -/
inductive WatchEvent where
  | Changed : WatchEvent
  | Error : String → WatchEvent
  deriving DecidableEq, Repr

/-- The outcome of one `email watch --timeout 300` invocation inside
`watcher_loop` (main.rs lines 334-362): `Except.error` when the
external binary could not be run at all, otherwise the process's exit
code (`status.code()`, `none` when killed by a signal). -/
abbrev WatchOutcome : Type := Except Unit (Option Nat)

/-- The notification one `watcher_loop` iteration sends to the main
loop for a given outcome of the external wait call (main.rs lines
342-360): exit code 0 reports a change, exit code 2 (the timeout) is
silently restarted with nothing sent, any other exit reports a
connection-lost error, and a failure to launch reports an
unavailable error. -/
def watcher_notification : WatchOutcome → Option WatchEvent
  | .ok (some 0) => some .Changed
  | .ok (some 2) => none
  | .ok _ => some (.Error "Watch connection lost")
  | .error _ => some (.Error "email watch unavailable")

/-- The watcher-polling step of the main loop (main.rs lines 62-78):
an empty channel leaves the state untouched, a change notification
routes `Message::MailboxChanged` through `App::update` (whose arm
returns no follow-up message), and an error notification sets a
status message and marks the watcher inactive. -/
def App.process_watch (a : App) : Option WatchEvent → App
  | none => a
  | some .Changed =>
    match a.update .MailboxChanged with
    | some (a1, _) => a1
    | none => a
  | some (.Error e) =>
    { a.set_status ("Watch: " ++ e) with watcher_active := false }

/-- A sample well-formed entry used by the concrete scenarios. -/
def entryA : EmailEntry :=
  { path := "inbox/2025-01-02-mail.md"
    from_ := "Alice"
    to_ := "Bob"
    cc := none
    subject := "hello"
    status := "inbox"
    date_display := "2025-01-02"
    date_sort := "2025-01-02T08:00:00"
    body := "some body text"
    has_attachments := false }

/-- A sample entry whose date could not be resolved. -/
def entryNoDate : EmailEntry :=
  { path := "inbox/undated.md"
    from_ := "Dan"
    to_ := "Bob"
    cc := none
    subject := "undated"
    status := "inbox"
    date_display := ""
    date_sort := ""
    body := "q"
    has_attachments := false }

/-- Concrete mailbox directories: two inbox files, one draft, empty
sent, no archive directory. -/
def dirs0 : Fin 4 → Dir := fun i =>
  if i = 0 then some [Except.ok entryA]
  else if i = 1 then some [Except.ok entryNoDate]
  else if i = 2 then some []
  else none

/-- The state at startup for the concrete directories. -/
def app0 : App := App.new dirs0

/-- The list-selection invariant of the spec: the selection index is
in bounds when the visible list is non-empty and pinned to 0 when it
is empty. -/
def listInv (a : App) : Prop :=
  (a.emails.length ≠ 0 → a.list_index < a.emails.length) ∧
  (a.emails.length = 0 → a.list_index = 0)

/-- The application states the main loop (main.rs) can reach from
startup: the initial state, states after a routed message, and states
after the loop's direct mutations (status ticks and messages, cache
invalidation, the reload after an action, taking the pending action,
the watcher poll, and the watcher-active flag). -/
inductive Reachable (dirs : Fin 4 → Dir) : App → Prop where
  | init : Reachable dirs (App.new dirs)
  | update {a b : App} {m : Message} {f : Option Message} :
      Reachable dirs a → a.update m = some (b, f) → Reachable dirs b
  | tick {a : App} : Reachable dirs a → Reachable dirs a.tick_status
  | status {a : App} {s : String} :
      Reachable dirs a → Reachable dirs (a.set_status s)
  | reload {a : App} :
      Reachable dirs a → Reachable dirs a.reload_current_mailbox
  | inval {a : App} {mb : Mailbox} :
      Reachable dirs a → Reachable dirs (a.invalidate_cache mb)
  | invalAll {a : App} :
      Reachable dirs a → Reachable dirs a.invalidate_all_caches
  | takeAction {a : App} :
      Reachable dirs a → Reachable dirs { a with pending_action := none }
  | watcherFlag {a : App} {w : Bool} :
      Reachable dirs a → Reachable dirs { a with watcher_active := w }
  | termSize {a : App} {w h : Nat} :
      Reachable dirs a →
      Reachable dirs { a with terminal_width := w, terminal_height := h }
  | poll {a : App} {ev : Option WatchEvent} :
      Reachable dirs a → Reachable dirs (a.process_watch ev)

lemma empty_le_str (s : String) : "" ≤ s := by
  rw [String.le_iff_toList_le]
  simp

lemma str_le_empty {s : String} (h : s ≤ "") : s = "" :=
  le_antisymm h (empty_le_str s)

/-- C5: for a non-empty query, metadata-only filtering returns a
sublist of the input, body-inclusive filtering keeps every entry the
metadata-only filter keeps, and an empty query returns the list
unchanged. -/
theorem filter_sublist_superset_empty_query (entries : List EmailEntry) (q : String) (mb : Mailbox) :
    (q ≠ "" →
      (filterEmails entries q false mb).Sublist entries ∧
      ∀ e ∈ filterEmails entries q false mb,
        e ∈ filterEmails entries q true mb) ∧
    (∀ ib : Bool, filterEmails entries "" ib mb = entries) := by
  constructor
  · intro hq
    have hne : q.isEmpty = false := by
      simp only [Bool.eq_false_iff, ne_eq, String.isEmpty_iff]
      exact hq
    constructor
    · simp only [filterEmails, hne, Bool.false_eq_true, if_false]
      exact List.filter_sublist _
    · intro e he
      simp only [filterEmails, hne, Bool.false_eq_true, if_false,
        List.mem_filter] at he ⊢
      obtain ⟨hmem, hmatch⟩ := he
      refine ⟨hmem, ?_⟩
      simp only [emailMatches, Bool.false_and, Bool.or_false,
        Bool.true_and, Bool.or_eq_true] at hmatch ⊢
      tauto
  · intro ib
    rfl

/-- C8: `load_emails` drops exactly the files whose parse fails (a
directory with one well-formed and one malformed file yields the one
good entry), and returns the survivors sorted by `date_sort`
descending, entries with an empty `date_sort` coming last. -/
theorem load_emails_skip_and_sort (files : List ParsedFile) (e : EmailEntry) :
    load_emails [Except.ok e, Except.error ()] = [e] ∧
    (load_emails files).Perm
      (files.filterMap fun f => (f : Except Unit EmailEntry).toOption) ∧
    (load_emails files).Sorted dateDesc ∧
    (load_emails files).Pairwise
      (fun a b => a.date_sort = "" → b.date_sort = "") := by
  refine ⟨rfl, List.perm_insertionSort _ _, List.sorted_insertionSort _ _, ?_⟩
  apply List.Pairwise.imp ?_ (List.sorted_insertionSort dateDesc _)
  intro a b hab ha
  exact str_le_empty (ha ▸ hab)

end BMail

namespace BMail

/-- C9: with no `date` and no `sent_at` field, the stem
`2025-06-01-0930-note` resolves to display date `2025-06-01` and sort
date `2025-06-01T09:30:00`; and when no field parses and the filename
has no valid `YYYY-MM-DD` prefix, both results are empty strings. -/
theorem resolve_date_filename_fallback (p1 p2 p3 : String → Option ChronoDT)
    (date_f sent_f : Option String) (stem : String) :
    resolve_date p1 p2 p3 none none "2025-06-01-0930-note" =
      ("2025-06-01", "2025-06-01T09:30:00") ∧
    ((∀ s, date_f = some s → p1 s = none) →
     (∀ s, sent_f = some s → p2 s = none ∧ p3 s = none) →
     (stem.toList.length < 10 ∨
        parseYmdOk ((stem.toList.take 10).asString) = false) →
     resolve_date p1 p2 p3 date_f sent_f stem = ("", "")) := by
  constructor
  · rfl
  · intro h1 h2 h3
    have hd : date_f.bind p1 = none := by
      cases date_f with
      | none => rfl
      | some s => simpa using h1 s rfl
    have hs : sent_f.bind (fun s => (p2 s).orElse fun _ => p3 s) = none := by
      cases sent_f with
      | none => rfl
      | some s =>
        obtain ⟨h2a, h2b⟩ := h2 s rfl
        simp [h2a, h2b]
    unfold resolve_date
    rw [hd, hs]
    rcases h3 with h3 | h3
    · rw [if_neg (by omega)]
    · by_cases hlen : stem.toList.length ≥ 10
      · simp only [String.toList] at h3
        rw [if_pos hlen, if_neg (by simp [h3])]
      · rw [if_neg hlen]

end BMail

namespace BMail

/-- C1: in List focus the keys a/d/x/X never set `pending_action`;
they only populate `confirm_dialog` with the corresponding tag (for
a/d/x exactly when an entry is selected). With a dialog open, y/Enter
queues exactly the tagged action and clears the dialog, n/Esc clears
the dialog leaving `pending_action` untouched. -/
theorem confirm_dialog_gates_destructive_actions (a b : App) (d : ConfirmDialog) :
    (a.focus = .List → a.confirm_dialog = none → a.show_help = false →
      (∀ a' m, a.handle_key (.Char 'a') = some (a', m) →
        a'.pending_action = a.pending_action ∧
        a'.confirm_dialog = a.selected_email.map fun e =>
          ⟨"Archive this email?", e.from_ ++ " - " ++ e.subject,
            .Archive⟩) ∧
      (∀ a' m, a.handle_key (.Char 'd') = some (a', m) →
        a'.pending_action = a.pending_action ∧
        a'.confirm_dialog = a.selected_email.map fun e =>
          ⟨"Delete this email?", e.from_ ++ " - " ++ e.subject,
            .Delete⟩) ∧
      (∀ a' m, a.handle_key (.Char 'x') = some (a', m) →
        a'.pending_action = a.pending_action ∧
        a'.confirm_dialog = a.selected_email.map fun e =>
          ⟨"Send this email?", "To: " ++ e.to_ ++ " - " ++ e.subject,
            .Send⟩) ∧
      (∀ a' m, a.handle_key (.Char 'X') = some (a', m) →
        a'.pending_action = a.pending_action ∧
        a'.confirm_dialog = if a.emails = [] then none else
          some ⟨"Send all approved emails?",
            "In " ++ a.active_mailbox.label, .SendApproved⟩)) ∧
    (b.confirm_dialog = some d →
      (∀ k, k = KeyCode.Char 'y' ∨ k = KeyCode.Enter →
        ∀ b' m, b.handle_key k = some (b', m) →
          b'.pending_action = some d.action.toAction ∧
          b'.confirm_dialog = none) ∧
      (∀ k, k = KeyCode.Char 'n' ∨ k = KeyCode.Esc →
        ∀ b' m, b.handle_key k = some (b', m) →
          b'.pending_action = b.pending_action ∧
          b'.confirm_dialog = none)) := by
  constructor
  · intro hf hd hh
    refine ⟨?_, ?_, ?_, ?_⟩
    · intro a' m h
      simp [App.handle_key, App.handle_list_key, App.selected_email,
        hd, hh, hf] at h
      obtain ⟨h1, h2⟩ := h
      subst h1
      split
      · next hnil => simp [App.selected_email, hnil, hd]
      · rcases hsel : a.emails[a.list_index]? with _ | email <;>
          simp [App.selected_email, hsel, hd]
    · intro a' m h
      simp [App.handle_key, App.handle_list_key, App.selected_email,
        hd, hh, hf] at h
      obtain ⟨h1, h2⟩ := h
      subst h1
      split
      · next hnil => simp [App.selected_email, hnil, hd]
      · rcases hsel : a.emails[a.list_index]? with _ | email <;>
          simp [App.selected_email, hsel, hd]
    · intro a' m h
      simp [App.handle_key, App.handle_list_key, App.selected_email,
        hd, hh, hf] at h
      obtain ⟨h1, h2⟩ := h
      subst h1
      split
      · next hnil => simp [App.selected_email, hnil, hd]
      · rcases hsel : a.emails[a.list_index]? with _ | email <;>
          simp [App.selected_email, hsel, hd]
    · intro a' m h
      simp [App.handle_key, App.handle_list_key, hd, hh, hf] at h
      obtain ⟨h1, h2⟩ := h
      subst h1
      split <;> simp_all
  · intro hb
    constructor
    · rintro k (rfl | rfl) b' m h <;>
      · simp [App.handle_key, App.handle_confirm_key, hb] at h
        obtain ⟨h1, h2⟩ := h
        subst h1
        simp
    · rintro k (rfl | rfl) b' m h <;>
      · simp [App.handle_key, App.handle_confirm_key, hb] at h
        obtain ⟨h1, h2⟩ := h
        subst h1
        simp [hb]

/-- C2 counterexample: from a state with preview scroll 5, pressing
the mailbox key 2 switches the mailbox but leaves the scroll at 5,
so the claimed reset of the preview scroll to 0 is false. -/
theorem switch_mailbox_keeps_preview_scroll_cex :
    ((({ app0 with preview_scroll := 5 } : App).handle_key
        (KeyCode.Char '2')).map fun p =>
      decide (p.1.preview_scroll = 0)) = some false := by
  rfl

/-- C2 (amended): switching the active mailbox by a number key or by
confirming the sidebar highlight resets the selection to 0 and clears
the search query and body-inclusion flag, but leaves the preview
scroll offset unchanged (the original claim also asserted a scroll
reset, refuted by `switch_mailbox_keeps_preview_scroll_cex`). -/
theorem switch_mailbox_resets_selection_and_search (a : App) :
    (a.confirm_dialog = none → a.show_help = false → a.focus ≠ .Search →
      ∀ k mb, ((k = KeyCode.Char '1' ∧ mb = Mailbox.Inbox) ∨
               (k = KeyCode.Char '2' ∧ mb = Mailbox.Drafts) ∨
               (k = KeyCode.Char '3' ∧ mb = Mailbox.Sent) ∨
               (k = KeyCode.Char '4' ∧ mb = Mailbox.Archive)) →
        ∀ a' m, a.handle_key k = some (a', m) →
          a'.active_mailbox = mb ∧ a'.list_index = 0 ∧
          a'.search_query = "" ∧ a'.search_includes_body = false ∧
          a'.preview_scroll = a.preview_scroll) ∧
    (a.confirm_dialog = none → a.show_help = false → a.focus = .Sidebar →
      ∀ k, (k = KeyCode.Enter ∨ k = KeyCode.Char 'l') →
        ∀ a' m, a.handle_key k = some (a', m) →
          a'.list_index = 0 ∧ a'.search_query = "" ∧
          a'.search_includes_body = false ∧
          a'.preview_scroll = a.preview_scroll) := by
  constructor
  · intro hd hh hf k mb hk a' m h
    rcases hk with ⟨rfl, rfl⟩ | ⟨rfl, rfl⟩ | ⟨rfl, rfl⟩ | ⟨rfl, rfl⟩ <;>
    · simp [App.handle_key, App.switch_mailbox, hd, hh, hf] at h
      obtain ⟨h1, h2⟩ := h
      subst h1
      split <;> simp
  · intro hd hh hf k hk a' m h
    rcases hget : Mailbox.ALL[a.sidebar_index]? with _ | mb <;>
      rcases hk with rfl | rfl <;>
        simp [App.handle_key, App.handle_sidebar_key, hd, hh, hf,
          hget] at h <;>
      · obtain ⟨h1, h2⟩ := h
        subst h1
        simp only [App.switch_mailbox]
        split <;> simp

set_option maxHeartbeats 1000000 in
lemma hlk_g (a : App) (b : Bool) (k : KeyCode)
    (hk : k ≠ KeyCode.Char 'g') :
    ({ a with g_pending := b } : App).handle_list_key k =
      a.handle_list_key k := by
  have hkc : (k = KeyCode.Char 'g') = False := by simp [hk]
  unfold App.handle_list_key
  simp only [hkc, if_false]

set_option maxHeartbeats 1000000 in
lemma hk_g (a : App) (b : Bool) (k : KeyCode) (hf : a.focus = Focus.List)
    (hd : a.confirm_dialog = none) (hh : a.show_help = false)
    (hk : k ≠ KeyCode.Char 'g') (hq : k ≠ KeyCode.Char 'q') :
    ({ a with g_pending := b } : App).handle_key k = a.handle_key k := by
  have hkc : (k = KeyCode.Char 'g') = False := by simp [hk]
  have hqc : (k = KeyCode.Char 'q') = False := by simp [hq]
  unfold App.handle_key App.handle_list_key
  simp only [hd, hh, hf, hkc, hqc, if_false, Option.isSome_none,
    Bool.false_eq_true, reduceCtorEq, reduceIte]

lemma switch_g (a : App) (mb : Mailbox) :
    (a.switch_mailbox mb).g_pending = a.g_pending := by
  cases hc : a.email_cache mb.index <;> simp [App.switch_mailbox, hc]

lemma reload_cache_g (a : App) :
    (a.reload_from_cache).g_pending = a.g_pending := by
  cases hc : a.email_cache a.active_mailbox.index <;>
    simp [App.reload_from_cache, hc]

set_option maxHeartbeats 2000000 in
lemma hlk_gfalse (a : App) (k : KeyCode) (hg : a.g_pending = false)
    (hk : k ≠ KeyCode.Char 'g') :
    (a.handle_list_key k).g_pending = false := by
  have hkc : (k = KeyCode.Char 'g') = False := by simp [hk]
  unfold App.handle_list_key
  simp only [hkc, if_false]
  by_cases he : a.emails.isEmpty = true
  · simp only [he, if_true]
    split_ifs <;> rfl
  · simp only [Bool.not_eq_true] at he
    simp only [he, Bool.false_eq_true, if_false]
    by_cases hG : k = KeyCode.Char 'G'
    · subst hG
      (try simp [App.selected_email, hg]) <;>
        first
        | rfl
        | exact hg
        | (split <;> first
            | rfl
            | exact hg
            | (split <;> first | rfl | exact hg))
        | (rcases hsel : a.emails[a.list_index]? with _ | e <;>
            simp [App.selected_email, hsel] <;>
            first
            | rfl
            | exact hg
            | (split <;> first | rfl | exact hg))
        | simp [hg]
    by_cases hj : k = KeyCode.Char 'j' ∨ k = KeyCode.Down
    · rcases hj with rfl | rfl <;>
        (try simp [App.selected_email, hg]) <;>
        first
        | rfl
        | exact hg
        | (split <;> first
            | rfl
            | exact hg
            | (split <;> first | rfl | exact hg))
        | (rcases hsel : a.emails[a.list_index]? with _ | e <;>
            simp [App.selected_email, hsel] <;>
            first
            | rfl
            | exact hg
            | (split <;> first | rfl | exact hg))
        | simp [hg]
    by_cases hk2 : k = KeyCode.Char 'k' ∨ k = KeyCode.Up
    · rcases hk2 with rfl | rfl <;>
        (try simp [App.selected_email, hg]) <;>
        first
        | rfl
        | exact hg
        | (split <;> first
            | rfl
            | exact hg
            | (split <;> first | rfl | exact hg))
        | (rcases hsel : a.emails[a.list_index]? with _ | e <;>
            simp [App.selected_email, hsel] <;>
            first
            | rfl
            | exact hg
            | (split <;> first | rfl | exact hg))
        | simp [hg]
    by_cases hh2 : k = KeyCode.Char 'h'
    · subst hh2
      (try simp [App.selected_email, hg]) <;>
        first
        | rfl
        | exact hg
        | (split <;> first
            | rfl
            | exact hg
            | (split <;> first | rfl | exact hg))
        | (rcases hsel : a.emails[a.list_index]? with _ | e <;>
            simp [App.selected_email, hsel] <;>
            first
            | rfl
            | exact hg
            | (split <;> first | rfl | exact hg))
        | simp [hg]
    by_cases hl : k = KeyCode.Char 'l'
    · subst hl
      (try simp [App.selected_email, hg]) <;>
        first
        | rfl
        | exact hg
        | (split <;> first
            | rfl
            | exact hg
            | (split <;> first | rfl | exact hg))
        | (rcases hsel : a.emails[a.list_index]? with _ | e <;>
            simp [App.selected_email, hsel] <;>
            first
            | rfl
            | exact hg
            | (split <;> first | rfl | exact hg))
        | simp [hg]
    by_cases hE : k = KeyCode.Enter ∨ k = KeyCode.Char 'e'
    · rcases hE with rfl | rfl <;>
        (try simp [App.selected_email, hg]) <;>
        first
        | rfl
        | exact hg
        | (split <;> first
            | rfl
            | exact hg
            | (split <;> first | rfl | exact hg))
        | (rcases hsel : a.emails[a.list_index]? with _ | e <;>
            simp [App.selected_email, hsel] <;>
            first
            | rfl
            | exact hg
            | (split <;> first | rfl | exact hg))
        | simp [hg]
    by_cases hr : k = KeyCode.Char 'r'
    · subst hr
      (try simp [App.selected_email, hg]) <;>
        first
        | rfl
        | exact hg
        | (split <;> first
            | rfl
            | exact hg
            | (split <;> first | rfl | exact hg))
        | (rcases hsel : a.emails[a.list_index]? with _ | e <;>
            simp [App.selected_email, hsel] <;>
            first
            | rfl
            | exact hg
            | (split <;> first | rfl | exact hg))
        | simp [hg]
    by_cases hR : k = KeyCode.Char 'R'
    · subst hR
      (try simp [App.selected_email, hg]) <;>
        first
        | rfl
        | exact hg
        | (split <;> first
            | rfl
            | exact hg
            | (split <;> first | rfl | exact hg))
        | (rcases hsel : a.emails[a.list_index]? with _ | e <;>
            simp [App.selected_email, hsel] <;>
            first
            | rfl
            | exact hg
            | (split <;> first | rfl | exact hg))
        | simp [hg]
    by_cases ha : k = KeyCode.Char 'a'
    · subst ha
      (try simp [App.selected_email, hg]) <;>
        first
        | rfl
        | exact hg
        | (split <;> first
            | rfl
            | exact hg
            | (split <;> first | rfl | exact hg))
        | (rcases hsel : a.emails[a.list_index]? with _ | e <;>
            simp [App.selected_email, hsel] <;>
            first
            | rfl
            | exact hg
            | (split <;> first | rfl | exact hg))
        | simp [hg]
    by_cases hd2 : k = KeyCode.Char 'd'
    · subst hd2
      (try simp [App.selected_email, hg]) <;>
        first
        | rfl
        | exact hg
        | (split <;> first
            | rfl
            | exact hg
            | (split <;> first | rfl | exact hg))
        | (rcases hsel : a.emails[a.list_index]? with _ | e <;>
            simp [App.selected_email, hsel] <;>
            first
            | rfl
            | exact hg
            | (split <;> first | rfl | exact hg))
        | simp [hg]
    by_cases hA : k = KeyCode.Char 'A'
    · subst hA
      (try simp [App.selected_email, hg]) <;>
        first
        | rfl
        | exact hg
        | (split <;> first
            | rfl
            | exact hg
            | (split <;> first | rfl | exact hg))
        | (rcases hsel : a.emails[a.list_index]? with _ | e <;>
            simp [App.selected_email, hsel] <;>
            first
            | rfl
            | exact hg
            | (split <;> first | rfl | exact hg))
        | simp [hg]
    by_cases hx : k = KeyCode.Char 'x'
    · subst hx
      (try simp [App.selected_email, hg]) <;>
        first
        | rfl
        | exact hg
        | (split <;> first
            | rfl
            | exact hg
            | (split <;> first | rfl | exact hg))
        | (rcases hsel : a.emails[a.list_index]? with _ | e <;>
            simp [App.selected_email, hsel] <;>
            first
            | rfl
            | exact hg
            | (split <;> first | rfl | exact hg))
        | simp [hg]
    by_cases hX : k = KeyCode.Char 'X'
    · subst hX
      (try simp [App.selected_email, hg]) <;>
        first
        | rfl
        | exact hg
        | (split <;> first
            | rfl
            | exact hg
            | (split <;> first | rfl | exact hg))
        | (rcases hsel : a.emails[a.list_index]? with _ | e <;>
            simp [App.selected_email, hsel] <;>
            first
            | rfl
            | exact hg
            | (split <;> first | rfl | exact hg))
        | simp [hg]
    by_cases hy : k = KeyCode.Char 'y'
    · subst hy
      (try simp [App.selected_email, hg]) <;>
        first
        | rfl
        | exact hg
        | (split <;> first
            | rfl
            | exact hg
            | (split <;> first | rfl | exact hg))
        | (rcases hsel : a.emails[a.list_index]? with _ | e <;>
            simp [App.selected_email, hsel] <;>
            first
            | rfl
            | exact hg
            | (split <;> first | rfl | exact hg))
        | simp [hg]
    by_cases hn : k = KeyCode.Char 'n'
    · subst hn
      (try simp [App.selected_email, hg]) <;>
        first
        | rfl
        | exact hg
        | (split <;> first
            | rfl
            | exact hg
            | (split <;> first | rfl | exact hg))
        | (rcases hsel : a.emails[a.list_index]? with _ | e <;>
            simp [App.selected_email, hsel] <;>
            first
            | rfl
            | exact hg
            | (split <;> first | rfl | exact hg))
        | simp [hg]
    by_cases hf2 : k = KeyCode.Char 'f'
    · subst hf2
      (try simp [App.selected_email, hg]) <;>
        first
        | rfl
        | exact hg
        | (split <;> first
            | rfl
            | exact hg
            | (split <;> first | rfl | exact hg))
        | (rcases hsel : a.emails[a.list_index]? with _ | e <;>
            simp [App.selected_email, hsel] <;>
            first
            | rfl
            | exact hg
            | (split <;> first | rfl | exact hg))
        | simp [hg]
    by_cases hF : k = KeyCode.Char 'F'
    · subst hF
      (try simp [App.selected_email, hg]) <;>
        first
        | rfl
        | exact hg
        | (split <;> first
            | rfl
            | exact hg
            | (split <;> first | rfl | exact hg))
        | (rcases hsel : a.emails[a.list_index]? with _ | e <;>
            simp [App.selected_email, hsel] <;>
            first
            | rfl
            | exact hg
            | (split <;> first | rfl | exact hg))
        | simp [hg]
    simp only [hG, hj, hk2, hh2, hl, hE, hr, hR, ha, hd2, hA, hx, hX, hy, hn, hf2, hF, if_false]
    (try simp [App.selected_email, hg]) <;>
      first
        | rfl
        | exact hg
        | (split <;> first
            | rfl
            | exact hg
            | (split <;> first | rfl | exact hg))
        | (rcases hsel : a.emails[a.list_index]? with _ | e <;>
            simp [App.selected_email, hsel] <;>
            first
            | rfl
            | exact hg
            | (split <;> first | rfl | exact hg))
        | simp [hg]

lemma hk_gfalse (a : App) (k : KeyCode) (hf : a.focus = Focus.List)
    (hd : a.confirm_dialog = none) (hh : a.show_help = false)
    (hg : a.g_pending = false) (hk : k ≠ KeyCode.Char 'g') :
    (a.handle_key k).map (fun p => p.1.g_pending) = some false := by
  cases k with
  | Char c =>
    by_cases h1 : c = 'q'
    · subst h1; simp [App.handle_key, hd, hh, hf, hg]
    by_cases h2 : c = '?'
    · subst h2; simp [App.handle_key, hd, hh, hf]
    by_cases h3 : c = '/'
    · subst h3; simp [App.handle_key, hd, hh, hf, reload_cache_g]
    by_cases h4 : c = '\\'
    · subst h4; simp [App.handle_key, hd, hh, hf, reload_cache_g]
    by_cases h5 : c = '1'
    · subst h5; simp [App.handle_key, hd, hh, hf, switch_g]
    by_cases h6 : c = '2'
    · subst h6; simp [App.handle_key, hd, hh, hf, switch_g]
    by_cases h7 : c = '3'
    · subst h7; simp [App.handle_key, hd, hh, hf, switch_g]
    by_cases h8 : c = '4'
    · subst h8; simp [App.handle_key, hd, hh, hf, switch_g]
    by_cases h9 : c = 's'
    · subst h9; simp [App.handle_key, hd, hh, hf]
    simp [App.handle_key, hd, hh, hf, h1, h2, h3, h4, h5, h6, h7, h8, h9,
      hlk_gfalse a (KeyCode.Char c) hg hk]
  | Enter => simp [App.handle_key, hd, hh, hf, hlk_gfalse a _ hg hk]
  | Esc => simp [App.handle_key, hd, hh, hf, hlk_gfalse a _ hg hk]
  | Tab => simp [App.handle_key, hd, hh, hf]
  | BackTab => simp [App.handle_key, hd, hh, hf]
  | Down => simp [App.handle_key, hd, hh, hf, hlk_gfalse a _ hg hk]
  | Up => simp [App.handle_key, hd, hh, hf, hlk_gfalse a _ hg hk]
  | Backspace => simp [App.handle_key, hd, hh, hf, hlk_gfalse a _ hg hk]
  | Other => simp [App.handle_key, hd, hh, hf, hlk_gfalse a _ hg hk]

/-- C10 counterexample: after a single g, pressing q leaves the
pending-chord flag set, so the claim that any other key clears it is
false. -/
theorem g_then_q_keeps_pending_cex :
    (match app0.handle_key (KeyCode.Char 'g') with
      | some (a1, _) =>
        (a1.handle_key (KeyCode.Char 'q')).map fun p =>
          decide (p.1.g_pending = false)
      | none => none) = some false := by
  decide

/-- C10 (amended): on a non-empty list, G selects index N-1; two g
presses select index 0 from any position; a single g followed by any
other key leaves the selection exactly where that key alone would put
it, and the pending-chord flag is cleared by any other key except q
(which queues quit and leaves the flag set, refuted for the original
claim by `g_then_q_keeps_pending_cex`). -/
theorem g_chord_navigation (a : App) (hf : a.focus = Focus.List)
    (hd : a.confirm_dialog = none) (hh : a.show_help = false)
    (hne : a.emails ≠ []) :
    (∀ a' m, a.handle_key (.Char 'G') = some (a', m) →
       a'.list_index = a.emails.length - 1) ∧
    (∀ a1 m1 a2 m2, a.handle_key (.Char 'g') = some (a1, m1) →
       a1.handle_key (.Char 'g') = some (a2, m2) → a2.list_index = 0) ∧
    (a.g_pending = false →
      ∀ k, k ≠ KeyCode.Char 'g' →
      ∀ a1 m1 a2 m2 a3 m3,
        a.handle_key (.Char 'g') = some (a1, m1) →
        a1.handle_key k = some (a2, m2) →
        a.handle_key k = some (a3, m3) →
        a2.list_index = a3.list_index ∧
        (k ≠ KeyCode.Char 'q' → a2.g_pending = false)) := by
  have he : a.emails.isEmpty = false := by
    simp only [Bool.eq_false_iff, ne_eq, List.isEmpty_iff]
    exact hne
  obtain ⟨fo, ru, tw, th, si, am, mc, md, em, li, gp, ps, ec, pa, cd,
    sm, st, sq, sib, sh, wa⟩ := a
  simp only at hf hd hh he
  subst hf; subst hd; subst hh
  refine ⟨?_, ?_, ?_⟩
  · intro a' m h
    simp [App.handle_key, App.handle_list_key, he] at h
    obtain ⟨h1, h2⟩ := h
    subst h1
    split <;> simp
  · intro a1 m1 a2 m2 h1 h2
    simp [App.handle_key, App.handle_list_key, he] at h1
    obtain ⟨h1a, h1b⟩ := h1
    cases gp with
    | true =>
      simp only [if_true] at h1a
      rcases eq_or_ne 0 li with hidx | hidx
      · subst hidx
        simp only [ne_eq, not_true_eq_false, Bool.false_eq_true,
          if_false, reduceIte] at h1a
        subst h1a
        simp [App.handle_key, App.handle_list_key, he] at h2
        obtain ⟨h2a, h2b⟩ := h2
        subst h2a
        rfl
      · simp only [ne_eq, hidx, not_false_eq_true, if_true,
          reduceIte] at h1a
        subst h1a
        simp [App.handle_key, App.handle_list_key, he] at h2
        obtain ⟨h2a, h2b⟩ := h2
        subst h2a
        rfl
    | false =>
      simp only [Bool.false_eq_true, if_false] at h1a
      subst h1a
      simp [App.handle_key, App.handle_list_key, he] at h2
      obtain ⟨h2a, h2b⟩ := h2
      subst h2a
      split <;> rfl
  · intro hg k hk a1 m1 a2 m2 a3 m3 h1 h2 h3
    subst hg
    simp [App.handle_key, App.handle_list_key, he] at h1
    obtain ⟨h1a, h1b⟩ := h1
    subst h1a
    by_cases hq : k = KeyCode.Char 'q'
    · subst hq
      simp [App.handle_key] at h2 h3
      obtain ⟨h2a, h2b⟩ := h2
      obtain ⟨h3a, h3b⟩ := h3
      subst h2a
      subst h3a
      simp
    · rw [hk_g (⟨Focus.List, ru, tw, th, si, am, mc, md, em, li, false, ps, ec, pa, none, sm, st, sq, sib, false, wa⟩ : App) true k rfl rfl rfl hk hq] at h2
      rw [h3] at h2
      have hflag := hk_gfalse (⟨Focus.List, ru, tw, th, si, am, mc, md, em, li, false, ps, ec, pa, none, sm, st, sq, sib, false, wa⟩ : App) k rfl rfl rfl rfl hk
      rw [h3] at hflag
      simp only [Option.map_some', Option.some.injEq] at hflag
      obtain ⟨h2a, h2b⟩ := Prod.mk.injEq .. ▸ Option.some.inj h2
      subst h2a
      exact ⟨rfl, fun _ => hflag⟩

/-- Witness for C10 at the concrete initial state. -/
theorem g_chord_navigation_witness :
    (∀ a' m, app0.handle_key (.Char 'G') = some (a', m) →
       a'.list_index = app0.emails.length - 1) ∧
    (∀ a1 m1 a2 m2, app0.handle_key (.Char 'g') = some (a1, m1) →
       a1.handle_key (.Char 'g') = some (a2, m2) → a2.list_index = 0) ∧
    (app0.g_pending = false →
      ∀ k, k ≠ KeyCode.Char 'g' →
      ∀ a1 m1 a2 m2 a3 m3,
        app0.handle_key (.Char 'g') = some (a1, m1) →
        a1.handle_key k = some (a2, m2) →
        app0.handle_key k = some (a3, m3) →
        a2.list_index = a3.list_index ∧
        (k ≠ KeyCode.Char 'q' → a2.g_pending = false)) :=
  g_chord_navigation app0 rfl rfl rfl
    (by rw [show app0.emails = [entryA] from rfl]; simp)

/-- C3 counterexample: pressing Tab while focus is Search leaves the
focus on Search, so the claimed fall-through to List is false. -/
theorem tab_in_search_swallowed_cex :
    ((({ app0 with focus := Focus.Search } : App).handle_key
        KeyCode.Tab).map fun p =>
      decide (p.1.focus = Focus.List)) = some false := by
  rfl

/-- C3 (amended): Tab cycles Sidebar to List to Preview to Sidebar and
BackTab cycles backward; while focus is Search, Tab and BackTab are
consumed by the search handler and leave the state unchanged (the
original claim said they move focus to List, refuted by
`tab_in_search_swallowed_cex`). -/
theorem tab_backtab_cycle_ring (a : App) (hd : a.confirm_dialog = none)
    (hh : a.show_help = false) :
    ((a.focus = .Sidebar →
        ∀ a' m, a.handle_key .Tab = some (a', m) → a'.focus = .List) ∧
     (a.focus = .List →
        ∀ a' m, a.handle_key .Tab = some (a', m) → a'.focus = .Preview) ∧
     (a.focus = .Preview →
        ∀ a' m, a.handle_key .Tab = some (a', m) → a'.focus = .Sidebar) ∧
     (a.focus = .Sidebar →
        ∀ a' m, a.handle_key .BackTab = some (a', m) →
          a'.focus = .Preview) ∧
     (a.focus = .List →
        ∀ a' m, a.handle_key .BackTab = some (a', m) →
          a'.focus = .Sidebar) ∧
     (a.focus = .Preview →
        ∀ a' m, a.handle_key .BackTab = some (a', m) →
          a'.focus = .List)) ∧
    (a.focus = .Search →
      a.handle_key .Tab = some (a, none) ∧
      a.handle_key .BackTab = some (a, none)) := by
  constructor
  · refine ⟨?_, ?_, ?_, ?_, ?_, ?_⟩ <;>
    · intro hf a' m h
      simp [App.handle_key, hd, hh, hf] at h
      obtain ⟨h1, h2⟩ := h
      subst h1
      rfl
  · intro hf
    constructor <;>
      simp [App.handle_key, App.handle_search_key, hd, hh, hf]

/-- Witness for C3 at the concrete initial state. -/
theorem tab_backtab_cycle_ring_witness :
    ((app0.focus = .Sidebar →
        ∀ a' m, app0.handle_key .Tab = some (a', m) →
          a'.focus = .List) ∧
     (app0.focus = .List →
        ∀ a' m, app0.handle_key .Tab = some (a', m) →
          a'.focus = .Preview) ∧
     (app0.focus = .Preview →
        ∀ a' m, app0.handle_key .Tab = some (a', m) →
          a'.focus = .Sidebar) ∧
     (app0.focus = .Sidebar →
        ∀ a' m, app0.handle_key .BackTab = some (a', m) →
          a'.focus = .Preview) ∧
     (app0.focus = .List →
        ∀ a' m, app0.handle_key .BackTab = some (a', m) →
          a'.focus = .Sidebar) ∧
     (app0.focus = .Preview →
        ∀ a' m, app0.handle_key .BackTab = some (a', m) →
          a'.focus = .List)) ∧
    (app0.focus = .Search →
      app0.handle_key .Tab = some (app0, none) ∧
      app0.handle_key .BackTab = some (app0, none)) :=
  tab_backtab_cycle_ring app0 rfl rfl

lemma inv_zero {a : App} (h : a.list_index = 0) : listInv a := by
  constructor <;> intro hl <;> omega

lemma switch_inv (a : App) (mb : Mailbox) : listInv (a.switch_mailbox mb) :=
  inv_zero rfl

lemma asf_inv (a : App) : listInv a.apply_search_filter :=
  inv_zero rfl

lemma rfc_inv (a : App) : listInv a.reload_from_cache :=
  inv_zero rfl

lemma reload_inv (a : App) : listInv a.reload_current_mailbox := by
  unfold App.reload_current_mailbox
  by_cases he : ((a.invalidate_cache a.active_mailbox).switch_mailbox
      (a.invalidate_cache a.active_mailbox).active_mailbox).emails.isEmpty
  · simp only [he, if_true, reduceIte]
    exact inv_zero rfl
  · simp only [he, Bool.false_eq_true, if_false, reduceIte]
    have hlen : ((a.invalidate_cache a.active_mailbox).switch_mailbox
        (a.invalidate_cache
          a.active_mailbox).active_mailbox).emails.length ≠ 0 := by
      intro hc
      exact he (List.isEmpty_iff.mpr (List.length_eq_zero.mp hc))
    constructor
    · intro _
      simp only [List.length_nil]
      omega
    · intro h0
      exact absurd h0 hlen

lemma inv_of_fields {a b : App} (hinv : listInv a)
    (he : b.emails = a.emails) (hi : b.list_index = a.list_index) :
    listInv b := by
  unfold listInv at hinv ⊢
  rw [he, hi]
  exact hinv

set_option maxHeartbeats 2000000 in
lemma hlk_inv (a : App) (k : KeyCode) (hinv : listInv a) :
    listInv (a.handle_list_key k) := by
  unfold App.handle_list_key
  by_cases he : a.emails.isEmpty = true
  · simp only [he, if_true]
    split_ifs <;> exact inv_of_fields hinv rfl rfl
  · simp only [Bool.not_eq_true] at he
    have hlen : a.emails.length ≠ 0 := fun hc =>
      (by simp [List.isEmpty_iff.mpr (List.length_eq_zero.mp hc)] at he)
    simp only [he, Bool.false_eq_true, if_false]
    by_cases hg2 : k = KeyCode.Char 'g'
    · subst hg2
      (try simp [App.selected_email, he]) <;>
        first
        | exact inv_zero rfl
        | exact inv_of_fields hinv rfl rfl
        | (simp only [listInv] at hinv ⊢; omega)
        | (split <;> first
            | exact inv_zero rfl
            | exact inv_of_fields hinv rfl rfl
            | (simp only [listInv] at hinv ⊢; omega)
            | (split <;> first
                | exact inv_zero rfl
                | exact inv_of_fields hinv rfl rfl
                | (simp only [listInv] at hinv ⊢; omega)))
    by_cases hG : k = KeyCode.Char 'G'
    · subst hG
      (try simp [App.selected_email, he]) <;>
        first
        | exact inv_zero rfl
        | exact inv_of_fields hinv rfl rfl
        | (simp only [listInv] at hinv ⊢; omega)
        | (split <;> first
            | exact inv_zero rfl
            | exact inv_of_fields hinv rfl rfl
            | (simp only [listInv] at hinv ⊢; omega)
            | (split <;> first
                | exact inv_zero rfl
                | exact inv_of_fields hinv rfl rfl
                | (simp only [listInv] at hinv ⊢; omega)))
    by_cases hj : k = KeyCode.Char 'j' ∨ k = KeyCode.Down
    · rcases hj with rfl | rfl <;>
        (try simp [App.selected_email, he]) <;>
        first
        | exact inv_zero rfl
        | exact inv_of_fields hinv rfl rfl
        | (simp only [listInv] at hinv ⊢; omega)
        | (split <;> first
            | exact inv_zero rfl
            | exact inv_of_fields hinv rfl rfl
            | (simp only [listInv] at hinv ⊢; omega)
            | (split <;> first
                | exact inv_zero rfl
                | exact inv_of_fields hinv rfl rfl
                | (simp only [listInv] at hinv ⊢; omega)))
    by_cases hk2 : k = KeyCode.Char 'k' ∨ k = KeyCode.Up
    · rcases hk2 with rfl | rfl <;>
        (try simp [App.selected_email, he]) <;>
        first
        | exact inv_zero rfl
        | exact inv_of_fields hinv rfl rfl
        | (simp only [listInv] at hinv ⊢; omega)
        | (split <;> first
            | exact inv_zero rfl
            | exact inv_of_fields hinv rfl rfl
            | (simp only [listInv] at hinv ⊢; omega)
            | (split <;> first
                | exact inv_zero rfl
                | exact inv_of_fields hinv rfl rfl
                | (simp only [listInv] at hinv ⊢; omega)))
    by_cases hh2 : k = KeyCode.Char 'h'
    · subst hh2
      (try simp [App.selected_email, he]) <;>
        first
        | exact inv_zero rfl
        | exact inv_of_fields hinv rfl rfl
        | (simp only [listInv] at hinv ⊢; omega)
        | (split <;> first
            | exact inv_zero rfl
            | exact inv_of_fields hinv rfl rfl
            | (simp only [listInv] at hinv ⊢; omega)
            | (split <;> first
                | exact inv_zero rfl
                | exact inv_of_fields hinv rfl rfl
                | (simp only [listInv] at hinv ⊢; omega)))
    by_cases hl : k = KeyCode.Char 'l'
    · subst hl
      (try simp [App.selected_email, he]) <;>
        first
        | exact inv_zero rfl
        | exact inv_of_fields hinv rfl rfl
        | (simp only [listInv] at hinv ⊢; omega)
        | (split <;> first
            | exact inv_zero rfl
            | exact inv_of_fields hinv rfl rfl
            | (simp only [listInv] at hinv ⊢; omega)
            | (split <;> first
                | exact inv_zero rfl
                | exact inv_of_fields hinv rfl rfl
                | (simp only [listInv] at hinv ⊢; omega)))
    by_cases hE : k = KeyCode.Enter ∨ k = KeyCode.Char 'e'
    · rcases hE with rfl | rfl <;>
        (try simp [App.selected_email, he]) <;>
        first
        | exact inv_zero rfl
        | exact inv_of_fields hinv rfl rfl
        | (simp only [listInv] at hinv ⊢; omega)
        | (split <;> first
            | exact inv_zero rfl
            | exact inv_of_fields hinv rfl rfl
            | (simp only [listInv] at hinv ⊢; omega)
            | (split <;> first
                | exact inv_zero rfl
                | exact inv_of_fields hinv rfl rfl
                | (simp only [listInv] at hinv ⊢; omega)))
    by_cases hr : k = KeyCode.Char 'r'
    · subst hr
      (try simp [App.selected_email, he]) <;>
        first
        | exact inv_zero rfl
        | exact inv_of_fields hinv rfl rfl
        | (simp only [listInv] at hinv ⊢; omega)
        | (split <;> first
            | exact inv_zero rfl
            | exact inv_of_fields hinv rfl rfl
            | (simp only [listInv] at hinv ⊢; omega)
            | (split <;> first
                | exact inv_zero rfl
                | exact inv_of_fields hinv rfl rfl
                | (simp only [listInv] at hinv ⊢; omega)))
    by_cases hR : k = KeyCode.Char 'R'
    · subst hR
      (try simp [App.selected_email, he]) <;>
        first
        | exact inv_zero rfl
        | exact inv_of_fields hinv rfl rfl
        | (simp only [listInv] at hinv ⊢; omega)
        | (split <;> first
            | exact inv_zero rfl
            | exact inv_of_fields hinv rfl rfl
            | (simp only [listInv] at hinv ⊢; omega)
            | (split <;> first
                | exact inv_zero rfl
                | exact inv_of_fields hinv rfl rfl
                | (simp only [listInv] at hinv ⊢; omega)))
    by_cases ha : k = KeyCode.Char 'a'
    · subst ha
      (try simp [App.selected_email, he]) <;>
        first
        | exact inv_zero rfl
        | exact inv_of_fields hinv rfl rfl
        | (simp only [listInv] at hinv ⊢; omega)
        | (split <;> first
            | exact inv_zero rfl
            | exact inv_of_fields hinv rfl rfl
            | (simp only [listInv] at hinv ⊢; omega)
            | (split <;> first
                | exact inv_zero rfl
                | exact inv_of_fields hinv rfl rfl
                | (simp only [listInv] at hinv ⊢; omega)))
    by_cases hd2 : k = KeyCode.Char 'd'
    · subst hd2
      (try simp [App.selected_email, he]) <;>
        first
        | exact inv_zero rfl
        | exact inv_of_fields hinv rfl rfl
        | (simp only [listInv] at hinv ⊢; omega)
        | (split <;> first
            | exact inv_zero rfl
            | exact inv_of_fields hinv rfl rfl
            | (simp only [listInv] at hinv ⊢; omega)
            | (split <;> first
                | exact inv_zero rfl
                | exact inv_of_fields hinv rfl rfl
                | (simp only [listInv] at hinv ⊢; omega)))
    by_cases hA : k = KeyCode.Char 'A'
    · subst hA
      (try simp [App.selected_email, he]) <;>
        first
        | exact inv_zero rfl
        | exact inv_of_fields hinv rfl rfl
        | (simp only [listInv] at hinv ⊢; omega)
        | (split <;> first
            | exact inv_zero rfl
            | exact inv_of_fields hinv rfl rfl
            | (simp only [listInv] at hinv ⊢; omega)
            | (split <;> first
                | exact inv_zero rfl
                | exact inv_of_fields hinv rfl rfl
                | (simp only [listInv] at hinv ⊢; omega)))
    by_cases hx : k = KeyCode.Char 'x'
    · subst hx
      (try simp [App.selected_email, he]) <;>
        first
        | exact inv_zero rfl
        | exact inv_of_fields hinv rfl rfl
        | (simp only [listInv] at hinv ⊢; omega)
        | (split <;> first
            | exact inv_zero rfl
            | exact inv_of_fields hinv rfl rfl
            | (simp only [listInv] at hinv ⊢; omega)
            | (split <;> first
                | exact inv_zero rfl
                | exact inv_of_fields hinv rfl rfl
                | (simp only [listInv] at hinv ⊢; omega)))
    by_cases hX : k = KeyCode.Char 'X'
    · subst hX
      (try simp [App.selected_email, he]) <;>
        first
        | exact inv_zero rfl
        | exact inv_of_fields hinv rfl rfl
        | (simp only [listInv] at hinv ⊢; omega)
        | (split <;> first
            | exact inv_zero rfl
            | exact inv_of_fields hinv rfl rfl
            | (simp only [listInv] at hinv ⊢; omega)
            | (split <;> first
                | exact inv_zero rfl
                | exact inv_of_fields hinv rfl rfl
                | (simp only [listInv] at hinv ⊢; omega)))
    by_cases hy : k = KeyCode.Char 'y'
    · subst hy
      (try simp [App.selected_email, he]) <;>
        first
        | exact inv_zero rfl
        | exact inv_of_fields hinv rfl rfl
        | (simp only [listInv] at hinv ⊢; omega)
        | (split <;> first
            | exact inv_zero rfl
            | exact inv_of_fields hinv rfl rfl
            | (simp only [listInv] at hinv ⊢; omega)
            | (split <;> first
                | exact inv_zero rfl
                | exact inv_of_fields hinv rfl rfl
                | (simp only [listInv] at hinv ⊢; omega)))
    by_cases hn : k = KeyCode.Char 'n'
    · subst hn
      (try simp [App.selected_email, he]) <;>
        first
        | exact inv_zero rfl
        | exact inv_of_fields hinv rfl rfl
        | (simp only [listInv] at hinv ⊢; omega)
        | (split <;> first
            | exact inv_zero rfl
            | exact inv_of_fields hinv rfl rfl
            | (simp only [listInv] at hinv ⊢; omega)
            | (split <;> first
                | exact inv_zero rfl
                | exact inv_of_fields hinv rfl rfl
                | (simp only [listInv] at hinv ⊢; omega)))
    by_cases hf2 : k = KeyCode.Char 'f'
    · subst hf2
      (try simp [App.selected_email, he]) <;>
        first
        | exact inv_zero rfl
        | exact inv_of_fields hinv rfl rfl
        | (simp only [listInv] at hinv ⊢; omega)
        | (split <;> first
            | exact inv_zero rfl
            | exact inv_of_fields hinv rfl rfl
            | (simp only [listInv] at hinv ⊢; omega)
            | (split <;> first
                | exact inv_zero rfl
                | exact inv_of_fields hinv rfl rfl
                | (simp only [listInv] at hinv ⊢; omega)))
    by_cases hF : k = KeyCode.Char 'F'
    · subst hF
      (try simp [App.selected_email, he]) <;>
        first
        | exact inv_zero rfl
        | exact inv_of_fields hinv rfl rfl
        | (simp only [listInv] at hinv ⊢; omega)
        | (split <;> first
            | exact inv_zero rfl
            | exact inv_of_fields hinv rfl rfl
            | (simp only [listInv] at hinv ⊢; omega)
            | (split <;> first
                | exact inv_zero rfl
                | exact inv_of_fields hinv rfl rfl
                | (simp only [listInv] at hinv ⊢; omega)))
    simp only [hg2, hG, hj, hk2, hh2, hl, hE, hr, hR, ha, hd2, hA, hx, hX, hy, hn, hf2, hF, if_false]
    (try simp [App.selected_email, he]) <;>
      first
        | exact inv_zero rfl
        | exact inv_of_fields hinv rfl rfl
        | (simp only [listInv] at hinv ⊢; omega)
        | (split <;> first
            | exact inv_zero rfl
            | exact inv_of_fields hinv rfl rfl
            | (simp only [listInv] at hinv ⊢; omega)
            | (split <;> first
                | exact inv_zero rfl
                | exact inv_of_fields hinv rfl rfl
                | (simp only [listInv] at hinv ⊢; omega)))

lemma conf_inv (a : App) (k : KeyCode) (hinv : listInv a) :
    listInv (a.handle_confirm_key k) := by
  unfold App.handle_confirm_key
  split_ifs <;> (try split) <;> exact inv_of_fields hinv rfl rfl

lemma help_inv (a : App) (k : KeyCode) (hinv : listInv a) :
    listInv (a.handle_help_key k) := by
  unfold App.handle_help_key
  split_ifs <;> exact inv_of_fields hinv rfl rfl

lemma search_inv (a : App) (k : KeyCode) (hinv : listInv a) :
    listInv (a.handle_search_key k) := by
  cases k <;>
    first
    | exact inv_of_fields hinv rfl rfl
    | exact inv_zero rfl

lemma preview_inv (a : App) (k : KeyCode) (hinv : listInv a) :
    listInv (a.handle_preview_key k) := by
  unfold App.handle_preview_key
  split_ifs <;> exact inv_of_fields hinv rfl rfl

lemma sidebar_inv (a : App) (k : KeyCode) (b : App) (hinv : listInv a)
    (h : a.handle_sidebar_key k = some b) : listInv b := by
  unfold App.handle_sidebar_key at h
  dsimp only at h
  split_ifs at h <;>
    first
    | (injection h with h1; subst h1;
        first
        | exact inv_of_fields hinv rfl rfl
        | exact inv_zero rfl)
    | (rcases hget : Mailbox.ALL.get? a.sidebar_index with _ | mb <;>
        rw [hget] at h <;>
        first
        | (injection h with h1; subst h1; exact inv_zero rfl)
        | cases h)

lemma hk_inv (a : App) (k : KeyCode) (b : App) (f : Option Message)
    (hinv : listInv a) (h : a.handle_key k = some (b, f)) : listInv b := by
  unfold App.handle_key at h
  by_cases hdia : a.confirm_dialog.isSome = true
  · rw [if_pos hdia] at h
    injection h with h1
    injection h1 with h2 h3
    subst h2
    exact conf_inv _ _ hinv
  rw [if_neg hdia] at h
  by_cases hhelp : a.show_help = true
  · rw [if_pos hhelp] at h
    injection h with h1
    injection h1 with h2 h3
    subst h2
    exact help_inv _ _ hinv
  rw [if_neg hhelp] at h
  by_cases hsea : a.focus = Focus.Search
  · rw [if_pos hsea] at h
    injection h with h1
    injection h1 with h2 h3
    subst h2
    exact search_inv _ _ hinv
  rw [if_neg hsea] at h
  by_cases hq : k = KeyCode.Char 'q'
  · rw [if_pos hq] at h
    injection h with h1
    injection h1 with h2 h3
    subst h2
    exact hinv
  rw [if_neg hq] at h
  by_cases hque : k = KeyCode.Char '?'
  · rw [if_pos hque] at h
    injection h with h1
    injection h1 with h2 h3
    subst h2
    exact inv_of_fields hinv rfl rfl
  rw [if_neg hque] at h
  by_cases hsl : k = KeyCode.Char '/'
  · rw [if_pos hsl] at h
    injection h with h1
    injection h1 with h2 h3
    subst h2
    exact inv_zero rfl
  rw [if_neg hsl] at h
  by_cases hbs : k = KeyCode.Char '\\'
  · rw [if_pos hbs] at h
    injection h with h1
    injection h1 with h2 h3
    subst h2
    exact inv_zero rfl
  rw [if_neg hbs] at h
  by_cases hn1 : k = KeyCode.Char '1'
  · rw [if_pos hn1] at h
    injection h with h1
    injection h1 with h2 h3
    subst h2
    exact inv_zero rfl
  rw [if_neg hn1] at h
  by_cases hn2 : k = KeyCode.Char '2'
  · rw [if_pos hn2] at h
    injection h with h1
    injection h1 with h2 h3
    subst h2
    exact inv_zero rfl
  rw [if_neg hn2] at h
  by_cases hn3 : k = KeyCode.Char '3'
  · rw [if_pos hn3] at h
    injection h with h1
    injection h1 with h2 h3
    subst h2
    exact inv_zero rfl
  rw [if_neg hn3] at h
  by_cases hn4 : k = KeyCode.Char '4'
  · rw [if_pos hn4] at h
    injection h with h1
    injection h1 with h2 h3
    subst h2
    exact inv_zero rfl
  rw [if_neg hn4] at h
  by_cases hsk : k = KeyCode.Char 's'
  · rw [if_pos hsk] at h
    injection h with h1
    injection h1 with h2 h3
    subst h2
    exact inv_of_fields hinv rfl rfl
  rw [if_neg hsk] at h
  by_cases htab : k = KeyCode.Tab
  · rw [if_pos htab] at h
    injection h with h1
    injection h1 with h2 h3
    subst h2
    exact inv_of_fields hinv rfl rfl
  rw [if_neg htab] at h
  by_cases hbt : k = KeyCode.BackTab
  · rw [if_pos hbt] at h
    injection h with h1
    injection h1 with h2 h3
    subst h2
    exact inv_of_fields hinv rfl rfl
  rw [if_neg hbt] at h
  rcases hfoc : a.focus <;> simp only [hfoc] at h <;>
    first
    | (rcases Option.map_eq_some'.mp h with ⟨a1, hs, heq⟩;
        injection heq with he1 he2; subst he1;
        exact sidebar_inv _ _ _ hinv hs)
    | (injection h with h1; injection h1 with h2 h3; subst h2;
        first
        | exact hlk_inv _ _ hinv
        | exact preview_inv _ _ hinv)
    | cases h

/-- C6: the selection-index invariant (in bounds when the list is
non-empty, 0 when empty) holds in the initial state and is preserved
by every update step and by the reload performed after an action. -/
theorem list_index_invariant (dirs : Fin 4 → Dir) (a : App) (m : Message) :
    listInv (App.new dirs) ∧
    (listInv a → ∀ b f, a.update m = some (b, f) → listInv b) ∧
    (listInv a → listInv a.reload_current_mailbox) := by
  refine ⟨inv_zero rfl, ?_, fun _ => reload_inv a⟩
  intro hinv b f h
  cases m with
  | Key k => exact hk_inv a k b f hinv h
  | Resize w hgt =>
    injection h with h1
    injection h1 with h2 h3
    subst h2
    exact inv_of_fields hinv rfl rfl
  | Quit =>
    injection h with h1
    injection h1 with h2 h3
    subst h2
    exact inv_of_fields hinv rfl rfl
  | MailboxChanged =>
    injection h with h1
    injection h1 with h2 h3
    subst h2
    exact reload_inv a

set_option maxHeartbeats 2000000 in
lemma hlk_sidebar (a : App) (k : KeyCode) :
    (a.handle_list_key k).sidebar_index = a.sidebar_index := by
  unfold App.handle_list_key
  by_cases he : a.emails.isEmpty = true
  · simp only [he, if_true]
    split_ifs <;> rfl
  · simp only [Bool.not_eq_true] at he
    simp only [he, Bool.false_eq_true, if_false]
    by_cases hg2 : k = KeyCode.Char 'g'
    · subst hg2
      (try simp [App.selected_email, he]) <;>
        first
        | rfl
        | (split <;> first | rfl | (split <;> rfl))
        | (rcases hsel : a.emails[a.list_index]? with _ | e <;>
            simp [App.selected_email, hsel])
    by_cases hG : k = KeyCode.Char 'G'
    · subst hG
      (try simp [App.selected_email, he]) <;>
        first
        | rfl
        | (split <;> first | rfl | (split <;> rfl))
        | (rcases hsel : a.emails[a.list_index]? with _ | e <;>
            simp [App.selected_email, hsel])
    by_cases hj : k = KeyCode.Char 'j' ∨ k = KeyCode.Down
    · rcases hj with rfl | rfl <;>
        (try simp [App.selected_email, he]) <;>
        first
        | rfl
        | (split <;> first | rfl | (split <;> rfl))
        | (rcases hsel : a.emails[a.list_index]? with _ | e <;>
            simp [App.selected_email, hsel])
    by_cases hk2 : k = KeyCode.Char 'k' ∨ k = KeyCode.Up
    · rcases hk2 with rfl | rfl <;>
        (try simp [App.selected_email, he]) <;>
        first
        | rfl
        | (split <;> first | rfl | (split <;> rfl))
        | (rcases hsel : a.emails[a.list_index]? with _ | e <;>
            simp [App.selected_email, hsel])
    by_cases hh2 : k = KeyCode.Char 'h'
    · subst hh2
      (try simp [App.selected_email, he]) <;>
        first
        | rfl
        | (split <;> first | rfl | (split <;> rfl))
        | (rcases hsel : a.emails[a.list_index]? with _ | e <;>
            simp [App.selected_email, hsel])
    by_cases hl : k = KeyCode.Char 'l'
    · subst hl
      (try simp [App.selected_email, he]) <;>
        first
        | rfl
        | (split <;> first | rfl | (split <;> rfl))
        | (rcases hsel : a.emails[a.list_index]? with _ | e <;>
            simp [App.selected_email, hsel])
    by_cases hE : k = KeyCode.Enter ∨ k = KeyCode.Char 'e'
    · rcases hE with rfl | rfl <;>
        (try simp [App.selected_email, he]) <;>
        first
        | rfl
        | (split <;> first | rfl | (split <;> rfl))
        | (rcases hsel : a.emails[a.list_index]? with _ | e <;>
            simp [App.selected_email, hsel])
    by_cases hr : k = KeyCode.Char 'r'
    · subst hr
      (try simp [App.selected_email, he]) <;>
        first
        | rfl
        | (split <;> first | rfl | (split <;> rfl))
        | (rcases hsel : a.emails[a.list_index]? with _ | e <;>
            simp [App.selected_email, hsel])
    by_cases hR : k = KeyCode.Char 'R'
    · subst hR
      (try simp [App.selected_email, he]) <;>
        first
        | rfl
        | (split <;> first | rfl | (split <;> rfl))
        | (rcases hsel : a.emails[a.list_index]? with _ | e <;>
            simp [App.selected_email, hsel])
    by_cases ha : k = KeyCode.Char 'a'
    · subst ha
      (try simp [App.selected_email, he]) <;>
        first
        | rfl
        | (split <;> first | rfl | (split <;> rfl))
        | (rcases hsel : a.emails[a.list_index]? with _ | e <;>
            simp [App.selected_email, hsel])
    by_cases hd2 : k = KeyCode.Char 'd'
    · subst hd2
      (try simp [App.selected_email, he]) <;>
        first
        | rfl
        | (split <;> first | rfl | (split <;> rfl))
        | (rcases hsel : a.emails[a.list_index]? with _ | e <;>
            simp [App.selected_email, hsel])
    by_cases hA : k = KeyCode.Char 'A'
    · subst hA
      (try simp [App.selected_email, he]) <;>
        first
        | rfl
        | (split <;> first | rfl | (split <;> rfl))
        | (rcases hsel : a.emails[a.list_index]? with _ | e <;>
            simp [App.selected_email, hsel])
    by_cases hx : k = KeyCode.Char 'x'
    · subst hx
      (try simp [App.selected_email, he]) <;>
        first
        | rfl
        | (split <;> first | rfl | (split <;> rfl))
        | (rcases hsel : a.emails[a.list_index]? with _ | e <;>
            simp [App.selected_email, hsel])
    by_cases hX : k = KeyCode.Char 'X'
    · subst hX
      (try simp [App.selected_email, he]) <;>
        first
        | rfl
        | (split <;> first | rfl | (split <;> rfl))
        | (rcases hsel : a.emails[a.list_index]? with _ | e <;>
            simp [App.selected_email, hsel])
    by_cases hy : k = KeyCode.Char 'y'
    · subst hy
      (try simp [App.selected_email, he]) <;>
        first
        | rfl
        | (split <;> first | rfl | (split <;> rfl))
        | (rcases hsel : a.emails[a.list_index]? with _ | e <;>
            simp [App.selected_email, hsel])
    by_cases hn : k = KeyCode.Char 'n'
    · subst hn
      (try simp [App.selected_email, he]) <;>
        first
        | rfl
        | (split <;> first | rfl | (split <;> rfl))
        | (rcases hsel : a.emails[a.list_index]? with _ | e <;>
            simp [App.selected_email, hsel])
    by_cases hf2 : k = KeyCode.Char 'f'
    · subst hf2
      (try simp [App.selected_email, he]) <;>
        first
        | rfl
        | (split <;> first | rfl | (split <;> rfl))
        | (rcases hsel : a.emails[a.list_index]? with _ | e <;>
            simp [App.selected_email, hsel])
    by_cases hF : k = KeyCode.Char 'F'
    · subst hF
      (try simp [App.selected_email, he]) <;>
        first
        | rfl
        | (split <;> first | rfl | (split <;> rfl))
        | (rcases hsel : a.emails[a.list_index]? with _ | e <;>
            simp [App.selected_email, hsel])
    simp only [hg2, hG, hj, hk2, hh2, hl, hE, hr, hR, ha, hd2, hA, hx, hX, hy, hn, hf2, hF, if_false]
    (try simp [App.selected_email, he]) <;>
      first
        | rfl
        | (split <;> first | rfl | (split <;> rfl))
        | (rcases hsel : a.emails[a.list_index]? with _ | e <;>
            simp [App.selected_email, hsel])

lemma switch_sidebar (a : App) (mb : Mailbox) :
    (a.switch_mailbox mb).sidebar_index = a.sidebar_index := by
  cases hc : a.email_cache mb.index <;> simp [App.switch_mailbox, hc]

lemma rfc_sidebar (a : App) :
    (a.reload_from_cache).sidebar_index = a.sidebar_index := by
  cases hc : a.email_cache a.active_mailbox.index <;>
    simp [App.reload_from_cache, hc]

lemma reload_sidebar (a : App) :
    (a.reload_current_mailbox).sidebar_index = a.sidebar_index := by
  simp [App.reload_current_mailbox, apply_ite App.sidebar_index,
    switch_sidebar, App.invalidate_cache]

lemma conf_sidebar (a : App) (k : KeyCode) :
    (a.handle_confirm_key k).sidebar_index = a.sidebar_index := by
  unfold App.handle_confirm_key
  split_ifs <;> (try split) <;> rfl

lemma help_sidebar (a : App) (k : KeyCode) :
    (a.handle_help_key k).sidebar_index = a.sidebar_index := by
  unfold App.handle_help_key
  split_ifs <;> rfl

lemma search_sidebar (a : App) (k : KeyCode) :
    (a.handle_search_key k).sidebar_index = a.sidebar_index := by
  cases k <;>
    first
    | rfl
    | simp [App.handle_search_key, App.apply_search_filter, rfc_sidebar]

lemma preview_sidebar (a : App) (k : KeyCode) :
    (a.handle_preview_key k).sidebar_index = a.sidebar_index := by
  unfold App.handle_preview_key
  split_ifs <;> rfl

lemma hk_sidebar_le (a : App) (k : KeyCode) (b : App)
    (f : Option Message) (hs : a.sidebar_index < 4)
    (h : a.handle_key k = some (b, f)) : b.sidebar_index < 4 := by
  unfold App.handle_key at h
  by_cases hdia : a.confirm_dialog.isSome = true
  · rw [if_pos hdia] at h
    injection h with h1
    injection h1 with h2 h3
    subst h2
    rw [conf_sidebar]; exact hs
  rw [if_neg hdia] at h
  by_cases hhelp : a.show_help = true
  · rw [if_pos hhelp] at h
    injection h with h1
    injection h1 with h2 h3
    subst h2
    rw [help_sidebar]; exact hs
  rw [if_neg hhelp] at h
  by_cases hsea : a.focus = Focus.Search
  · rw [if_pos hsea] at h
    injection h with h1
    injection h1 with h2 h3
    subst h2
    rw [search_sidebar]; exact hs
  rw [if_neg hsea] at h
  by_cases hq : k = KeyCode.Char 'q'
  · rw [if_pos hq] at h
    injection h with h1
    injection h1 with h2 h3
    subst h2
    exact hs
  rw [if_neg hq] at h
  by_cases hque : k = KeyCode.Char '?'
  · rw [if_pos hque] at h
    injection h with h1
    injection h1 with h2 h3
    subst h2
    exact hs
  rw [if_neg hque] at h
  by_cases hsl : k = KeyCode.Char '/'
  · rw [if_pos hsl] at h
    injection h with h1
    injection h1 with h2 h3
    subst h2
    rw [rfc_sidebar]; exact hs
  rw [if_neg hsl] at h
  by_cases hbs : k = KeyCode.Char '\\'
  · rw [if_pos hbs] at h
    injection h with h1
    injection h1 with h2 h3
    subst h2
    rw [rfc_sidebar]; exact hs
  rw [if_neg hbs] at h
  by_cases hn1 : k = KeyCode.Char '1'
  · rw [if_pos hn1] at h
    injection h with h1
    injection h1 with h2 h3
    subst h2
    rw [switch_sidebar]
    show (0 : Nat) < 4
    decide
  rw [if_neg hn1] at h
  by_cases hn2 : k = KeyCode.Char '2'
  · rw [if_pos hn2] at h
    injection h with h1
    injection h1 with h2 h3
    subst h2
    rw [switch_sidebar]
    show (1 : Nat) < 4
    decide
  rw [if_neg hn2] at h
  by_cases hn3 : k = KeyCode.Char '3'
  · rw [if_pos hn3] at h
    injection h with h1
    injection h1 with h2 h3
    subst h2
    rw [switch_sidebar]
    show (2 : Nat) < 4
    decide
  rw [if_neg hn3] at h
  by_cases hn4 : k = KeyCode.Char '4'
  · rw [if_pos hn4] at h
    injection h with h1
    injection h1 with h2 h3
    subst h2
    rw [switch_sidebar]
    show (3 : Nat) < 4
    decide
  rw [if_neg hn4] at h
  by_cases hsk : k = KeyCode.Char 's'
  · rw [if_pos hsk] at h
    injection h with h1
    injection h1 with h2 h3
    subst h2
    exact hs
  rw [if_neg hsk] at h
  by_cases htab : k = KeyCode.Tab
  · rw [if_pos htab] at h
    injection h with h1
    injection h1 with h2 h3
    subst h2
    exact hs
  rw [if_neg htab] at h
  by_cases hbt : k = KeyCode.BackTab
  · rw [if_pos hbt] at h
    injection h with h1
    injection h1 with h2 h3
    subst h2
    exact hs
  rw [if_neg hbt] at h
  have hALL : Mailbox.ALL.length = 4 := rfl
  rcases hfoc : a.focus <;> simp only [hfoc] at h <;>
    first
    | (rcases Option.map_eq_some'.mp h with ⟨a1, hsb, heq⟩;
        injection heq with he1 he2; subst he1;
        unfold App.handle_sidebar_key at hsb;
        dsimp only at hsb;
        split_ifs at hsb <;>
          first
          | (injection hsb with h1; subst h1;
              first
              | exact hs
              | (show a.sidebar_index + 1 < 4; omega)
              | (show a.sidebar_index - 1 < 4; omega)
              | (show a.sidebar_index < 4; exact hs))
          | (rcases hget : Mailbox.ALL.get? a.sidebar_index with _ | mb <;>
              rw [hget] at hsb <;>
              first
              | (injection hsb with h1; subst h1;
                  simp only [switch_sidebar];
                  exact hs)
              | cases hsb))
    | (injection h with h1; injection h1 with h2 h3; subst h2;
        first
        | (rw [hlk_sidebar]; exact hs)
        | (rw [preview_sidebar]; exact hs))
    | cases h

lemma sidebar_total (a : App) (k : KeyCode) (hs : a.sidebar_index < 4) :
    (a.handle_sidebar_key k).isSome = true := by
  unfold App.handle_sidebar_key
  dsimp only
  split_ifs <;>
    first
    | rfl
    | (rcases hget : Mailbox.ALL.get? a.sidebar_index with _ | mb <;>
        first
        | exact absurd (List.get?_eq_none.mp hget)
            (by rw [show Mailbox.ALL.length = 4 from rfl]; omega)
        | rfl)

lemma hk_total (a : App) (k : KeyCode) (hs : a.sidebar_index < 4) :
    (a.handle_key k).isSome = true := by
  unfold App.handle_key
  by_cases hc0 : a.confirm_dialog.isSome = true
  · rw [if_pos hc0]
    rfl
  rw [if_neg hc0]
  by_cases hc1 : a.show_help = true
  · rw [if_pos hc1]
    rfl
  rw [if_neg hc1]
  by_cases hc2 : a.focus = Focus.Search
  · rw [if_pos hc2]
    rfl
  rw [if_neg hc2]
  by_cases hc3 : k = KeyCode.Char 'q'
  · rw [if_pos hc3]
    rfl
  rw [if_neg hc3]
  by_cases hc4 : k = KeyCode.Char '?'
  · rw [if_pos hc4]
    rfl
  rw [if_neg hc4]
  by_cases hc5 : k = KeyCode.Char '/'
  · rw [if_pos hc5]
    rfl
  rw [if_neg hc5]
  by_cases hc6 : k = KeyCode.Char '\\'
  · rw [if_pos hc6]
    rfl
  rw [if_neg hc6]
  by_cases hc7 : k = KeyCode.Char '1'
  · rw [if_pos hc7]
    rfl
  rw [if_neg hc7]
  by_cases hc8 : k = KeyCode.Char '2'
  · rw [if_pos hc8]
    rfl
  rw [if_neg hc8]
  by_cases hc9 : k = KeyCode.Char '3'
  · rw [if_pos hc9]
    rfl
  rw [if_neg hc9]
  by_cases hc10 : k = KeyCode.Char '4'
  · rw [if_pos hc10]
    rfl
  rw [if_neg hc10]
  by_cases hc11 : k = KeyCode.Char 's'
  · rw [if_pos hc11]
    rfl
  rw [if_neg hc11]
  by_cases hc12 : k = KeyCode.Tab
  · rw [if_pos hc12]
    rfl
  rw [if_neg hc12]
  by_cases hc13 : k = KeyCode.BackTab
  · rw [if_pos hc13]
    rfl
  rw [if_neg hc13]
  rcases hfoc : a.focus <;> simp only [hfoc]
  · have ht := sidebar_total a k hs
    rcases hres : a.handle_sidebar_key k with _ | a1
    · rw [hres] at ht
      simp at ht
    · rfl
  · rfl
  · rfl
  · exact absurd hfoc hc2

lemma reach_sidebar {dirs : Fin 4 → Dir} {a : App}
    (h : Reachable dirs a) : a.sidebar_index < 4 := by
  induction h with
  | init =>
    show (0 : Nat) < 4
    decide
  | @update a b m f _ hup ih =>
    cases m with
    | Key k => exact hk_sidebar_le a k b f ih hup
    | Resize w hgt =>
      injection hup with h1
      injection h1 with h2 h3
      subst h2
      exact ih
    | Quit =>
      injection hup with h1
      injection h1 with h2 h3
      subst h2
      exact ih
    | MailboxChanged =>
      injection hup with h1
      injection h1 with h2 h3
      subst h2
      rw [show (App.handle_mailbox_changed a).sidebar_index =
        a.sidebar_index from reload_sidebar a]
      exact ih
  | tick _ ih =>
    unfold App.tick_status
    split <;> exact ih
  | status _ ih => exact ih
  | reload _ ih =>
    rw [reload_sidebar]
    exact ih
  | inval _ ih => exact ih
  | invalAll _ ih => exact ih
  | takeAction _ ih => exact ih
  | watcherFlag _ ih => exact ih
  | termSize _ ih => exact ih
  | @poll a ev _ ih =>
    cases ev with
    | none => exact ih
    | some e =>
      cases e with
      | Changed =>
        show (a.reload_current_mailbox).sidebar_index < 4
        rw [reload_sidebar]
        exact ih
      | Error msg => exact ih

/-- C4: a timed-out wait (exit code 2) sends no notification and an
empty poll leaves the state, including the status message, unchanged;
a change notification routes `MailboxChanged` through the router,
reloading the active mailbox from its directory and refreshing all
mailbox counts. -/
theorem watcher_timeout_silent_change_reloads (a : App) :
    watcher_notification (Except.ok (some 2)) = none ∧
    a.process_watch none = a ∧
    watcher_notification (Except.ok (some 0)) = some WatchEvent.Changed ∧
    (a.process_watch (some .Changed)).emails =
      (match (a.mailbox_dirs a.active_mailbox.index :
          Option (List ParsedFile)) with
       | some d => load_emails d
       | none => []) ∧
    (a.process_watch (some .Changed)).mailbox_counts =
      count_emails a.mailbox_dirs := by
  refine ⟨rfl, rfl, rfl, ?_, ?_⟩
  · show (a.reload_current_mailbox).emails = _
    simp [App.reload_current_mailbox, App.invalidate_cache,
      App.switch_mailbox, upd4, apply_ite App.emails]
  · show (a.reload_current_mailbox).mailbox_counts = _
    simp [App.reload_current_mailbox, App.invalidate_cache,
      App.switch_mailbox, upd4, apply_ite App.mailbox_dirs]

/-- C7: the key router is total on every reachable state: `handle_key`
never hits a panic, where `none` models both the `unreachable!()` arm
for `Focus::Search` in the pane dispatch and an out-of-range
`Mailbox::ALL` index in the sidebar handler. -/
theorem router_total_on_reachable_states (dirs : Fin 4 → Dir) (a : App)
    (k : KeyCode) (h : Reachable dirs a) :
    (a.handle_key k).isSome = true :=
  hk_total a k (reach_sidebar h)

/-- Witness for C7 at the concrete initial state. -/
theorem router_total_witness :
    ((App.new dirs0).handle_key (KeyCode.Char 'q')).isSome = true :=
  router_total_on_reachable_states dirs0 (App.new dirs0)
    (KeyCode.Char 'q') Reachable.init

end BMail
